import Mathlib

/-!
# consul_session_lock: a counting admission controller over Consul sessions

A shallow embedding of `consul_session_lock.go` and the properties of its
admission decision (`CheckAccess`), its lease client (`createSession`,
`sessionCount`, `deleteSession`, `reNewSession`) and its keep-alive loop
(`SessionHold`).

Conventions of the embedding.

* A response body (`[]byte`) is represented by its parse result: `none` is a
  byte sequence that is not a JSON text (the empty body included), `some v` is
  a byte sequence that parses to the JSON value `v`.
* `encoding/json` is embedded at the level of JSON values, for the two Go
  types the program decodes into (`Session`, `[]Session`) and the one it
  encodes (`ConsultParam`).
* The network is an explicit state: every function that performs an exchange
  takes the world before and returns the world after; the world records each
  call of `makeRequest` in order.
* Go `int` is the 64-bit `int`; a Go slice is represented by the sequence of
  its elements (a nil slice and an empty slice are both `[]`).
* A Go `string` is a sequence of bytes that need not be valid UTF-8
  (`GoString`); the strings inside a JSON value are valid Unicode (`String`).
-/

namespace ConsulSessionLock

/-! ## Machine integers -/

/-- Two's complement wrap of an integer into the `int64` range. -/
def wrap64 (n : Int) : Int := (n + 2 ^ 63) % 2 ^ 64 - 2 ^ 63

/-- The values of Go's `int64`. -/
abbrev Int64 : Type := { n : Int // -(2 ^ 63) ≤ n ∧ n < 2 ^ 63 }

/-- The `int64` zero. -/
def Int64.zero : Int64 := ⟨0, by decide⟩

/-! ## Go strings -/

/-- One step of `utf8.DecodeRune` through a Go string: a rune that is validly
encoded there, or a single byte that begins no valid encoding. -/
inductive GoUnit where
  | rune (c : Char) : GoUnit
  | byte (b : Nat) : GoUnit
deriving DecidableEq, Repr

/-- A Go `string`: a sequence of bytes, valid UTF-8 or not, represented by the
runes and invalid bytes `utf8.DecodeRune` finds in it, in order. Every byte
sequence has exactly one such decomposition, so equality of Go strings is
equality of these sequences. Concatenation is `++`; the program concatenates
only after an ASCII literal, where the decomposition of the result is the
concatenation of the decompositions. -/
abbrev GoString : Type := List GoUnit

/-- The Go string holding the UTF-8 encoding of a Unicode string (a string
literal of the source, or a string decoded from JSON). -/
def goString (s : String) : GoString := s.data.map GoUnit.rune

/-- What `encoding/json` writes for one step of a Go string: the rune itself,
or U+FFFD for an invalid byte. -/
def GoUnit.coerce : GoUnit → Char
  | .rune c => c
  | .byte _ => Char.ofNat 0xFFFD

/-- The coercion `encoding/json` applies to a Go string it encodes: invalid
bytes are replaced by the Unicode replacement rune (`strings.ToValidUTF8(s,
"\uFFFD")`). -/
def toValidUTF8 (g : GoString) : String := String.mk (g.map GoUnit.coerce)

/-- The function `utf8.ValidString`: no byte of the string is invalid. -/
def validUTF8 : GoString → Bool
  | [] => true
  | .rune _ :: rest => validUTF8 rest
  | .byte _ :: _ => false

/-! ## JSON values and bodies -/

/-- JSON values. `num` is a number literal written as a plain integer,
`float` any other number literal (kept as its text). -/
inductive JSON where
  | null : JSON
  | bool (b : Bool) : JSON
  | num (n : Int) : JSON
  | float (lit : String) : JSON
  | str (s : String) : JSON
  | arr (xs : List JSON) : JSON
  | obj (kvs : List (String × JSON)) : JSON

/-- A byte sequence seen through the JSON parser: `none` when it is not a
JSON text. -/
abbrev Bytes : Type := Option JSON

/-- Go `error` values that the program can meet. -/
inductive Err where
  | transport (code : Nat) : Err
  | read (code : Nat) : Err
  | jsonSyntax : Err
  | unmarshalType (value : String) (target : String) : Err
deriving DecidableEq, Repr

/-- The word `encoding/json` uses for the kind of a JSON value in an
`UnmarshalTypeError`. -/
def JSON.kind : JSON → String
  | .null => "null"
  | .bool _ => "bool"
  | .num _ => "number"
  | .float _ => "number"
  | .str _ => "string"
  | .arr _ => "array"
  | .obj _ => "object"

/-! ## The program's types -/

/-- The Go struct `app`. -/
structure app where
  TTL : GoString
  UpdatePeriod : Int
deriving DecidableEq

/-- The Go struct `ConsultParam`, the create-request record. -/
structure ConsultParam where
  LockDelay : GoString
  Node : GoString
  Name : GoString
  Checks : List GoString
  TTL : GoString
deriving DecidableEq

/-- The Go struct `Session`, the lease entity. -/
structure Session where
  ID : GoString
  Name : GoString
  Node : GoString
  Checks : List GoString
  LockDelay : Int64
  Behavior : GoString
  TTL : GoString
  CreateIndex : Int64
  ModifyIndex : Int64
deriving DecidableEq

/-- The zero value `Session{}`. -/
def Session.zero : Session :=
  { ID := [], Name := [], Node := [], Checks := [], LockDelay := Int64.zero,
    Behavior := [], TTL := [], CreateIndex := Int64.zero, ModifyIndex := Int64.zero }

/-- The function `getUrl`: `fmt.Sprintf("http://localhost:8500/v1/%s", path)`. -/
def getUrl (path : GoString) : GoString := goString "http://localhost:8500/v1/" ++ path

/-- The function `New`: `&app{}`, every field at its zero value. -/
def New : app := { TTL := [], UpdatePeriod := 0 }

/-! ## encoding/json on the program's types -/

/-- The fields of `Session`. -/
inductive Field where
  | ID | Name | Node | Checks | LockDelay | Behavior | TTL | CreateIndex | ModifyIndex
deriving DecidableEq, Repr

/-- The JSON names of the fields of `Session`, in declaration order. -/
def sessionFields : List (String × Field) :=
  [("ID", .ID), ("Name", .Name), ("Node", .Node), ("Checks", .Checks),
   ("LockDelay", .LockDelay), ("Behavior", .Behavior), ("TTL", .TTL),
   ("CreateIndex", .CreateIndex), ("ModifyIndex", .ModifyIndex)]

/-- Case folding of one rune as `encoding/json` folds object keys: ASCII
letters go to upper case, and the two non-ASCII runes whose simple-fold orbit
contains an ASCII letter (U+017F long s, U+212A Kelvin sign) go to that
letter. Other runes fold among non-ASCII runes only; they are left as they
are, which gives the same matches against the ASCII names of `Session`. -/
def foldRune (c : Char) : Char :=
  if 97 ≤ c.toNat ∧ c.toNat ≤ 122 then Char.ofNat (c.toNat - 32)
  else if c.toNat = 0x17F then 'S'
  else if c.toNat = 0x212A then 'K'
  else c

/-- The folded form of an object key. -/
def foldName (s : String) : List Char := s.data.map foldRune

/-- The field of `Session` an object key decodes into: an exact match of the
name first, a case-folded match otherwise, no field for an unknown key. -/
def findField (key : String) : Option Field :=
  match sessionFields.find? (fun p => p.1 = key) with
  | some p => some p.2
  | none =>
    match sessionFields.find? (fun p => foldName p.1 = foldName key) with
    | some p => some p.2
    | none => none

/-- The first error wins: `encoding/json` saves the first type error and goes
on decoding. -/
def firstErr (saved new : Option Err) : Option Err :=
  match saved with
  | some e => some e
  | none => new

/-- Decoding a JSON value into a Go `string`. -/
def decodeString (v : JSON) (cur : GoString) (target : String) : GoString × Option Err :=
  match v with
  | .str s => (goString s, none)
  | .null => (cur, none)
  | w => (cur, some (.unmarshalType w.kind target))

/-- Decoding a JSON value into a Go `int64`: a plain integer literal in range
is stored, `null` leaves the field, anything else is a type error. -/
def decodeInt64 (v : JSON) (cur : Int64) (target : String) : Int64 × Option Err :=
  match v with
  | .num n =>
    if h : -(2 ^ 63) ≤ n ∧ n < 2 ^ 63 then (⟨n, h⟩, none)
    else (cur, some (.unmarshalType "number" target))
  | .null => (cur, none)
  | w => (cur, some (.unmarshalType w.kind target))

/-- Decoding the elements of a JSON array into the elements of a `[]string`;
`old` is what the slice held before (an element that decodes `null` keeps the
element already there). -/
def decodeStrings : List JSON → List GoString → List GoString × Option Err
  | [], _ => ([], none)
  | v :: vs, old =>
    let r := decodeString v (old.headD []) "string"
    let rest := decodeStrings vs old.tail
    (r.1 :: rest.1, firstErr r.2 rest.2)

/-- Decoding a JSON value into a Go `[]string`. -/
def decodeStringSlice (v : JSON) (cur : List GoString) (target : String) :
    List GoString × Option Err :=
  match v with
  | .arr xs => decodeStrings xs cur
  | .null => ([], none)
  | w => (cur, some (.unmarshalType w.kind target))

/-- Storing one object member into the field it names. -/
def setField (f : Field) (v : JSON) (s : Session) : Session × Option Err :=
  match f with
  | .ID => let r := decodeString v s.ID "Session.ID"; ({ s with ID := r.1 }, r.2)
  | .Name => let r := decodeString v s.Name "Session.Name"; ({ s with Name := r.1 }, r.2)
  | .Node => let r := decodeString v s.Node "Session.Node"; ({ s with Node := r.1 }, r.2)
  | .Checks =>
    let r := decodeStringSlice v s.Checks "Session.Checks"; ({ s with Checks := r.1 }, r.2)
  | .LockDelay =>
    let r := decodeInt64 v s.LockDelay "Session.LockDelay"; ({ s with LockDelay := r.1 }, r.2)
  | .Behavior =>
    let r := decodeString v s.Behavior "Session.Behavior"; ({ s with Behavior := r.1 }, r.2)
  | .TTL => let r := decodeString v s.TTL "Session.TTL"; ({ s with TTL := r.1 }, r.2)
  | .CreateIndex =>
    let r := decodeInt64 v s.CreateIndex "Session.CreateIndex"
    ({ s with CreateIndex := r.1 }, r.2)
  | .ModifyIndex =>
    let r := decodeInt64 v s.ModifyIndex "Session.ModifyIndex"
    ({ s with ModifyIndex := r.1 }, r.2)

/-- Decoding the members of a JSON object into a `Session`, in order; members
with an unknown key are skipped. -/
def decodeMembers : List (String × JSON) → Session → Option Err → Session × Option Err
  | [], s, e => (s, e)
  | (k, v) :: rest, s, e =>
    match findField k with
    | none => decodeMembers rest s e
    | some f =>
      let r := setField f v s
      decodeMembers rest r.1 (firstErr e r.2)

/-- Decoding a JSON value into a `Session` value. -/
def decodeSession (v : JSON) (s : Session) : Session × Option Err :=
  match v with
  | .obj kvs => decodeMembers kvs s none
  | .null => (s, none)
  | w => (s, some (.unmarshalType w.kind "Session"))

/-- The call `json.Unmarshal(answer, &session)` for a `Session`: a body that
is not JSON is a syntax error and leaves the session untouched. -/
def jsonUnmarshalSession (data : Bytes) (session : Session) : Session × Option Err :=
  match data with
  | none => (session, some .jsonSyntax)
  | some v => decodeSession v session

/-- Decoding the elements of a JSON array into fresh `Session` elements. -/
def decodeSessions : List JSON → List Session × Option Err
  | [] => ([], none)
  | v :: vs =>
    let r := decodeSession v Session.zero
    let rest := decodeSessions vs
    (r.1 :: rest.1, firstErr r.2 rest.2)

/-- The call `json.Unmarshal(data, &session)` for the slice
`make([]Session, 0)` of `sessionCount`. -/
def jsonUnmarshalSessions (data : Bytes) : List Session × Option Err :=
  match data with
  | none => ([], some .jsonSyntax)
  | some (.arr xs) => decodeSessions xs
  | some .null => ([], none)
  | some w => ([], some (.unmarshalType w.kind "[]Session"))

/-- One string member of an encoded struct under `omitempty`: dropped when the
string is empty, else written coerced to valid UTF-8. -/
def omitEmptyString (name : String) (value : GoString) : List (String × JSON) :=
  if value = [] then [] else [(name, .str (toValidUTF8 value))]

/-- The call `json.Marshal(data)` for a `ConsultParam`: the fields in
declaration order, each dropped when empty, every string coerced to valid
UTF-8. -/
def jsonMarshalConsultParam (data : ConsultParam) : JSON :=
  .obj (omitEmptyString "LockDelay" data.LockDelay
    ++ omitEmptyString "Node" data.Node
    ++ omitEmptyString "Name" data.Name
    ++ (if data.Checks = [] then [] else [("Checks", .arr (data.Checks.map (fun c => JSON.str (toValidUTF8 c))))])
    ++ omitEmptyString "TTL" data.TTL)

/-! ## The network -/

/-- The HTTP methods the program uses. -/
inductive Method where
  | GET | PUT
deriving DecidableEq, Repr

/-- What `makeRequest` is asked to exchange: method, URL and the optional
request body (`nil`, or the buffer holding the encoded parameters). -/
structure Request where
  method : Method
  url : GoString
  body : Option JSON

/-- The environment of `makeRequest` over a service state `σ`:
`newRequest` is the failure of `http.NewRequest` (if any), `clientDo` is
`client.Do`, which acts on the service and either fails or yields a response,
given by what `ioutil.ReadAll(response.Body)` returns for it (the bytes read
and the read error, if any). -/
structure Transport (σ : Type) where
  newRequest : Request → Option Err
  clientDo : Request → σ → Except Err (Bytes × Option Err) × σ

/-- The world an operation runs in: the state of the coordination service and
the calls of `makeRequest` so far, oldest first. -/
structure World (σ : Type) where
  svc : σ
  log : List Request

/-- The function `makeRequest`: build the request, perform it, read the whole
response body. The result is the Go pair `([]byte, error)`; nil bytes are
`none`. -/
def makeRequest {σ : Type} (t : Transport σ) (method : Method) (url : GoString)
    (body : Option JSON) (w : World σ) : (Bytes × Option Err) × World σ :=
  let request : Request := { method := method, url := url, body := body }
  let w1 : World σ := { svc := w.svc, log := w.log ++ [request] }
  match t.newRequest request with
  | some err => ((none, some err), w1)
  | none =>
    match t.clientDo request w1.svc with
    | (.error err, s) => ((none, some err), { svc := s, log := w1.log })
    | (.ok response, s) => (response, { svc := s, log := w1.log })

/-- The parameters `CheckAccess` creates its session with:
`ConsultParam{Name: sessionName, TTL: a.TTL}`. -/
def checkAccessData (a : app) (sessionName : GoString) : ConsultParam :=
  { LockDelay := [], Node := [], Name := sessionName, Checks := [], TTL := a.TTL }

/-- The request `createSession` makes. -/
def createRequest (data : ConsultParam) : Request :=
  { method := .PUT, url := getUrl (goString "session/create"), body := some (jsonMarshalConsultParam data) }

/-- The request `sessionList` makes. -/
def listRequest : Request :=
  { method := .GET, url := getUrl (goString "session/list"), body := none }

/-- The request `deleteSession` makes for a session ID. -/
def destroyRequest (sID : GoString) : Request :=
  { method := .PUT, url := getUrl (goString "session/destroy/" ++ sID), body := none }

/-- The request `reNewSession` makes for a session. -/
def renewRequest (session : Session) : Request :=
  { method := .PUT, url := getUrl (goString "session/renew/" ++ session.ID), body := none }

/-- The method `createSession`. -/
def createSession {σ : Type} (t : Transport σ) (_a : app) (data : ConsultParam)
    (w : World σ) : (Session × Option Err) × World σ :=
  let session := Session.zero
  let params := jsonMarshalConsultParam data
  let r := makeRequest t .PUT (getUrl (goString "session/create")) (some params) w
  match r.1.2 with
  | some err => ((session, some err), r.2)
  | none =>
    let d := jsonUnmarshalSession r.1.1 session
    match d.2 with
    | some err => ((d.1, some err), r.2)
    | none => ((d.1, none), r.2)

/-- The method `sessionList`. -/
def sessionList {σ : Type} (t : Transport σ) (_a : app) (w : World σ) :
    (Bytes × Option Err) × World σ :=
  let r := makeRequest t .GET (getUrl (goString "session/list")) none w
  match r.1.2 with
  | some err => ((r.1.1, some err), r.2)
  | none => ((r.1.1, none), r.2)

/-- The number of sessions of a decoded list that carry the given name: the
counting loop of `sessionCount`. A Go slice has at most `2^63 - 1` elements,
so the `int` counter cannot wrap. -/
def countByName (sessionName : GoString) : List Session → Int
  | [] => 0
  | s :: rest =>
    if s.Name = sessionName then countByName sessionName rest + 1
    else countByName sessionName rest

/-- The method `sessionCount`. -/
def sessionCount {σ : Type} (t : Transport σ) (a : app) (sessionName : GoString)
    (w : World σ) : (Int × Option Err) × World σ :=
  let r := sessionList t a w
  match r.1.2 with
  | some err => ((0, some err), r.2)
  | none =>
    let d := jsonUnmarshalSessions r.1.1
    match d.2 with
    | some err => ((0, some err), r.2)
    | none => ((countByName sessionName d.1, none), r.2)

/-- The method `deleteSession`. -/
def deleteSession {σ : Type} (t : Transport σ) (_a : app) (sID : GoString)
    (w : World σ) : Option Err × World σ :=
  let r := makeRequest t .PUT (getUrl (goString "session/destroy/" ++ sID)) none w
  match r.1.2 with
  | some err => (some err, r.2)
  | none => (none, r.2)

/-- The method `reNewSession`. -/
def reNewSession {σ : Type} (t : Transport σ) (_a : app) (session : Session)
    (w : World σ) : (Session × Option Err) × World σ :=
  let r := makeRequest t .PUT (getUrl (goString "session/renew/" ++ session.ID)) none w
  match r.1.2 with
  | some err => ((session, some err), r.2)
  | none =>
    let d := jsonUnmarshalSession r.1.1 session
    match d.2 with
    | some err => ((d.1, some err), r.2)
    | none => ((d.1, none), r.2)

/-- The method `CheckAccess`: the Go result pair `(bool, error)` and the world
after the call. -/
def CheckAccess {σ : Type} (t : Transport σ) (a : app) (sessionName : GoString)
    (availableCount : Int) (w : World σ) : (Bool × Option Err) × World σ :=
  let data : ConsultParam :=
    { LockDelay := [], Node := [], Name := sessionName, Checks := [], TTL := a.TTL }
  let c := createSession t a data w
  match c.1.2 with
  | some err => ((false, some err), c.2)
  | none =>
    let n := sessionCount t a sessionName c.2
    match n.1.2 with
    | some err => ((false, some err), n.2)
    | none =>
      if n.1.1 ≤ availableCount then ((true, none), n.2)
      else
        let d := deleteSession t a c.1.1.ID n.2
        match d.1 with
        | some err => ((false, some err), d.2)
        | none => ((false, none), d.2)

/-! ## The keep-alive loop -/

/-- The constant `time.Second`, in nanoseconds. -/
def Second : Int := 1000000000

/-- The ticker interval of `SessionHold`: `time.Duration(a.UpdatePeriod)`
times `time.Second`, an `int64` product. -/
def tickerInterval (a : app) : Int :=
  let duration := wrap64 a.UpdatePeriod
  wrap64 (duration * Second)

/-- The function `time.NewTicker`: it panics unless the interval is positive. -/
def NewTicker (d : Int) : Except String Unit :=
  if d ≤ 0 then .error "non-positive interval for NewTicker" else .ok ()

/-- The two cases of the `select` statement of `SessionHold`. -/
inductive Selected where
  | tick | done
deriving DecidableEq, Repr

/-- The states of the loop: blocked in `select`, or returned. -/
inductive HoldState where
  | Running | Stopped
deriving DecidableEq, Repr

/-- A configuration of a running `SessionHold`: the state of the loop, whether
a tick waits in `ticker.C` (a channel with a buffer of one), whether
`ctx.Done()` is closed, and the world. -/
structure Hold (σ : Type) where
  state : HoldState
  tickPending : Bool
  cancelled : Bool
  world : World σ

/-- What can happen while `SessionHold` runs: the ticker fires, the context is
cancelled, or the `select` statement proceeds with one of its cases. -/
inductive Event where
  | tickFires : Event
  | cancel : Event
  | select (c : Selected) : Event
deriving DecidableEq, Repr

/-- One step of `SessionHold`. A `select` case can proceed only when its
channel is ready; when both are ready either may be taken. The result is
`none` when the event cannot happen in the configuration. -/
def holdStep {σ : Type} (t : Transport σ) (a : app) (session : Session)
    (h : Hold σ) : Event → Option (Hold σ)
  | .tickFires =>
    some { state := h.state, tickPending := true, cancelled := h.cancelled, world := h.world }
  | .cancel =>
    some { state := h.state, tickPending := h.tickPending, cancelled := true, world := h.world }
  | .select .tick =>
    if h.state = .Running ∧ h.tickPending = true then
      let r := reNewSession t a session h.world
      some { state := .Running, tickPending := false, cancelled := h.cancelled, world := r.2 }
    else none
  | .select .done =>
    if h.state = .Running ∧ h.cancelled = true then
      some { state := .Stopped, tickPending := h.tickPending, cancelled := h.cancelled,
             world := h.world }
    else none

/-- A sequence of steps of `SessionHold`. -/
def holdRun {σ : Type} (t : Transport σ) (a : app) (session : Session) :
    List Event → Hold σ → Option (Hold σ)
  | [], h => some h
  | e :: es, h =>
    match holdStep t a session h e with
    | none => none
    | some h1 => holdRun t a session es h1

/-- The first two statements of `SessionHold`: the ticker is created over the
interval (or the call panics), and the loop is entered, blocked in `select`.
`ctxDone` tells whether the context is already cancelled at that moment. -/
def holdEnter {σ : Type} (a : app) (ctxDone : Bool) (w : World σ) :
    Except String (Hold σ) :=
  match NewTicker (tickerInterval a) with
  | .error msg => .error msg
  | .ok _ => .ok { state := .Running, tickPending := false, cancelled := ctxDone, world := w }

/-- The method `SessionHold` along a sequence of events: a panic in
`time.NewTicker`, or the configuration the loop has reached (`none` when the
sequence is not an execution of the loop). -/
def SessionHold {σ : Type} (t : Transport σ) (a : app) (session : Session)
    (ctxDone : Bool) (events : List Event) (w : World σ) :
    Except String (Option (Hold σ)) :=
  match holdEnter a ctxDone w with
  | .error msg => .error msg
  | .ok h => .ok (holdRun t a session events h)

/-- The events of `n` rounds in which the ticker fires and the loop takes the
tick. -/
def tickRounds : Nat → List Event
  | 0 => []
  | n + 1 => Event.tickFires :: Event.select .tick :: tickRounds n

/-- The number of times the loop takes the tick case in a sequence of events. -/
def ticksTaken : List Event → Nat
  | [] => 0
  | Event.select .tick :: es => ticksTaken es + 1
  | _ :: es => ticksTaken es

/-! ## A model of the coordination service -/

/-- A lease as the model service holds it. The service is reached over JSON,
so the strings it holds are valid Unicode. -/
structure Lease where
  ID : String
  Name : String
  Node : String
  Checks : List String
  LockDelay : Int64
  Behavior : String
  TTL : String
  CreateIndex : Int64
  ModifyIndex : Int64
deriving DecidableEq

/-- The `Session` value that holds a lease of the service. -/
def Lease.toSession (l : Lease) : Session :=
  { ID := goString l.ID, Name := goString l.Name, Node := goString l.Node,
    Checks := l.Checks.map goString, LockDelay := l.LockDelay,
    Behavior := goString l.Behavior, TTL := goString l.TTL,
    CreateIndex := l.CreateIndex, ModifyIndex := l.ModifyIndex }

/-- The lease record JSON shape of the service:
`ID, Name, Node, Checks, LockDelay, Behavior, TTL, CreateIndex, ModifyIndex`. -/
def sessionJSON (s : Lease) : JSON :=
  .obj [("ID", .str s.ID), ("Name", .str s.Name), ("Node", .str s.Node),
        ("Checks", .arr (s.Checks.map .str)), ("LockDelay", .num s.LockDelay.val),
        ("Behavior", .str s.Behavior), ("TTL", .str s.TTL),
        ("CreateIndex", .num s.CreateIndex.val), ("ModifyIndex", .num s.ModifyIndex.val)]

/-- The state of the model of the coordination service (an external
collaborator of the program, described by its interface in the spec): the
live leases, oldest first. -/
structure Consul where
  leases : List Lease

/-- The longest ID among the given leases. -/
def maxIDLength : List Lease → Nat
  | [] => 0
  | s :: rest => max s.ID.length (maxIDLength rest)

/-- The opaque ID the model service assigns on creation. It is longer than the
ID of every live lease, hence fresh. -/
def freshID (leases : List Lease) : String :=
  String.mk (List.replicate (maxIDLength leases + 1) 'x')

/-- The rest of a Go string after a given beginning. -/
def stripPrefix : GoString → GoString → Option GoString
  | [], s => some s
  | _ :: _, [] => none
  | p :: ps, c :: cs => if p = c then stripPrefix ps cs else none

/-- The operations of the HTTP surface of the service. -/
inductive Route where
  | create : Route
  | list : Route
  | destroy (id : GoString) : Route
  | renew (id : GoString) : Route
  | unknown : Route

/-- The operation of the model service a request addresses:
`PUT session/create`, `GET session/list`, `PUT session/destroy/<id>`,
`PUT session/renew/<id>`. -/
def route (r : Request) : Route :=
  match r.method with
  | .GET => if r.url = getUrl (goString "session/list") then .list else .unknown
  | .PUT =>
    match stripPrefix (getUrl (goString "session/destroy/")) r.url with
    | some id => .destroy id
    | none =>
      match stripPrefix (getUrl (goString "session/renew/")) r.url with
      | some id => .renew id
      | none => if r.url = getUrl (goString "session/create") then .create else .unknown

/-- The string under a key of a request body (empty when absent). -/
def bodyString (key : String) : Option JSON → String
  | some (.obj kvs) =>
    match kvs.find? (fun p => p.1 = key) with
    | some (_, .str s) => s
    | _ => ""
  | _ => ""

/-- The string a JSON value holds (empty when it is no string). -/
def JSON.strValue : JSON → String
  | .str s => s
  | _ => ""

/-- The strings of the array under a key of a request body (none when
absent). -/
def bodyStrings (key : String) : Option JSON → List String
  | some (.obj kvs) =>
    match kvs.find? (fun p => p.1 = key) with
    | some (_, .arr xs) => xs.map JSON.strValue
    | _ => []
  | _ => []

/-- The lease the model service creates for a create
request: the name, TTL, node and checks of the request, a fresh ID, the
service defaults for lock-delay (15 s, in nanoseconds) and behavior. The two
indices are not modelled and stay zero. -/
def newLease (body : Option JSON) (leases : List Lease) : Lease :=
  { ID := freshID leases, Name := bodyString "Name" body, Node := bodyString "Node" body,
    Checks := bodyStrings "Checks" body, LockDelay := ⟨15000000000, by decide⟩,
    Behavior := "release", TTL := bodyString "TTL" body,
    CreateIndex := Int64.zero, ModifyIndex := Int64.zero }

/-- The model of the coordination service answering one request:
create adds a lease with a fresh ID and answers its record, list answers the
records of all live leases, destroy removes the lease with the given ID and
acknowledges, renew answers the record of the lease or, when the lease is
gone, a body that is no lease record. -/
def consulServe (r : Request) (c : Consul) : Bytes × Consul :=
  match route r with
  | .create =>
    let lease := newLease r.body c.leases
    (some (sessionJSON lease), { leases := c.leases ++ [lease] })
  | .list => (some (.arr (c.leases.map sessionJSON)), c)
  | .destroy id =>
    (some (.bool true), { leases := c.leases.filter (fun s => goString s.ID ≠ id) })
  | .renew id =>
    match c.leases.find? (fun s => goString s.ID = id) with
    | some lease => (some (sessionJSON lease), c)
    | none => (none, c)
  | .unknown => (none, c)

/-- The model service reached over a transport on which every exchange
succeeds. -/
def consul : Transport Consul :=
  { newRequest := fun _ => none,
    clientDo := fun r c => (.ok ((consulServe r c).1, none), (consulServe r c).2) }

/-- The model service reached over a transport on which
the list exchange goes wrong: `reply` is what the client gets for
`GET session/list` (a transport error, or a body); every other exchange
succeeds. -/
def consulListFault (reply : Except Err (Bytes × Option Err)) : Transport Consul :=
  { newRequest := fun _ => none,
    clientDo := fun r c =>
      match route r with
      | .list => (reply, c)
      | _ => (.ok ((consulServe r c).1, none), (consulServe r c).2) }

/-- A caller making `n` calls of `CheckAccess` one after the other, with the
same resource name and capacity: the results in order and the world after the
last call. -/
def CheckAccessSeq {σ : Type} (t : Transport σ) (a : app) (sessionName : GoString)
    (availableCount : Int) : Nat → World σ → List (Bool × Option Err) × World σ
  | 0, w => ([], w)
  | n + 1, w =>
    let r := CheckAccess t a sessionName availableCount w
    let rest := CheckAccessSeq t a sessionName availableCount n r.2
    (r.1 :: rest.1, rest.2)

/-- The number of live leases whose name is the given Go string. -/
def leasesNamed (name : GoString) (c : Consul) : Nat :=
  (c.leases.filter (fun s => goString s.Name = name)).length

/-- The lease the model service creates for the request of `CheckAccess`
when `leases` are live: it gets the name and the TTL as the request encodes
them. -/
def createdLease (a : app) (name : GoString) (leases : List Lease) : Lease :=
  { ID := freshID leases, Name := toValidUTF8 name, Node := "", Checks := [],
    LockDelay := ⟨15000000000, by decide⟩, Behavior := "release", TTL := toValidUTF8 a.TTL,
    CreateIndex := Int64.zero, ModifyIndex := Int64.zero }

/-- The number of timer firings in a sequence of events. -/
def ticksFired : List Event → Nat
  | [] => 0
  | Event.tickFires :: es => ticksFired es + 1
  | _ :: es => ticksFired es

/-! ## Concrete inputs -/

/-- The resource name `db-writer`. -/
def dbWriter : GoString := goString "db-writer"

/-- The resource name `"\xff"`: one byte, which is not valid UTF-8. -/
def badName : GoString := [GoUnit.byte 255]

/-- An application configured with a TTL of 15 s and a renewal period of 5 s. -/
def exampleApp : app := { TTL := goString "15s", UpdatePeriod := 5 }

/-- A world whose service holds no lease and in which no request was made. -/
def emptyWorld : World Consul := { svc := { leases := [] }, log := [] }

/-- A lease of the given ID and name, every other field at its zero value. -/
def leaseNamed (id name : String) : Lease :=
  { ID := id, Name := name, Node := "", Checks := [], LockDelay := Int64.zero,
    Behavior := "", TTL := "", CreateIndex := Int64.zero, ModifyIndex := Int64.zero }

/-- A world whose service holds two leases named `db-writer` and three leases
whose names only resemble it. -/
def busyWorld : World Consul :=
  { svc := { leases := [leaseNamed "a1" "db-writer", leaseNamed "a2" "db",
      leaseNamed "a3" "DB-WRITER", leaseNamed "a4" "db-writer-2",
      leaseNamed "a5" "db-writer"] },
    log := [] }

/-- The world after one admitted `CheckAccess` for `db-writer` on the empty
service: the service holds the lease created by that call. -/
def heldWorld : World Consul := (CheckAccess consul exampleApp dbWriter 2 emptyWorld).2

/-- The lease held in `heldWorld`, as the program holds it. -/
def heldSession : Session := (createdLease exampleApp dbWriter []).toSession

/-- A running `SessionHold` on `heldWorld`: no tick pending, not cancelled. -/
def heldLoop : Hold Consul :=
  { state := .Running, tickPending := false, cancelled := false, world := heldWorld }

/-- What a configuration shows of a run: the state of the loop, whether
cancellation was signalled, and the URLs requested so far. -/
def Hold.view {σ : Type} (h : Hold σ) : HoldState × Bool × List String :=
  (h.state, h.cancelled, h.world.log.map (fun r => toValidUTF8 r.url))

/-- A create request that asks for a lock-delay. -/
def lockDelayParam : ConsultParam :=
  { LockDelay := goString "15s", Node := [], Name := dbWriter, Checks := [],
    TTL := goString "15s" }

/-- A create request without a lock-delay. -/
def plainParam : ConsultParam :=
  { LockDelay := [], Node := goString "node-1", Name := dbWriter,
    Checks := [goString "serfHealth"], TTL := goString "15s" }

/-- A create request without a lock-delay whose name is not valid UTF-8. -/
def badNameParam : ConsultParam :=
  { LockDelay := [], Node := [], Name := badName, Checks := [], TTL := goString "15s" }

/-! ## Theorems -/

theorem makeRequest_log {σ : Type} (t : Transport σ) (m : Method) (u : GoString)
    (b : Option JSON) (w : World σ) :
    (makeRequest t m u b w).2.log = w.log ++ [{ method := m, url := u, body := b }] := by
  simp only [makeRequest]
  split
  · rfl
  · split <;> rfl

/-- Claim C4. Naming the outcomes of the steps of `CheckAccess` (create exchange
`e1`, decoding of its body `d1`, list exchange `e2`, decoding of its body
`d2`, destroy exchange `e3`): the returned error is non-nil if and only if
the create exchange fails, or its decoding fails, or the list exchange fails,
or its decoding fails, or the count exceeds the limit and the destroy
exchange fails; the error is that of the first failing step, `admitted` is
false, and the world returned is the world after the failing step, so no
later request is made; when every performed step succeeds the error is nil. -/
theorem checkAccess_error_iff_first_failing_step {σ : Type} (t : Transport σ) (a : app) (name : GoString) (L : Int)
    (w w1 w2 w3 : World σ) (b1 b2 b3 : Bytes) (e1 e2 e3 d1 d2 : Option Err)
    (s : Session) (l : List Session)
    (h1 : makeRequest t .PUT (getUrl (goString "session/create"))
      (some (jsonMarshalConsultParam (checkAccessData a name))) w = ((b1, e1), w1))
    (hd1 : jsonUnmarshalSession b1 Session.zero = (s, d1))
    (h2 : makeRequest t .GET (getUrl (goString "session/list")) none w1 = ((b2, e2), w2))
    (hd2 : jsonUnmarshalSessions b2 = (l, d2))
    (h3 : makeRequest t .PUT (getUrl (goString "session/destroy/" ++ s.ID)) none w2 = ((b3, e3), w3)) :
    ((CheckAccess t a name L w).1.2 ≠ none ↔
        (e1 ≠ none ∨ (e1 = none ∧ d1 ≠ none) ∨ (e1 = none ∧ d1 = none ∧ e2 ≠ none)
          ∨ (e1 = none ∧ d1 = none ∧ e2 = none ∧ d2 ≠ none)
          ∨ (e1 = none ∧ d1 = none ∧ e2 = none ∧ d2 = none
              ∧ ¬ countByName name l ≤ L ∧ e3 ≠ none)))
      ∧ (∀ e, e1 = some e → CheckAccess t a name L w = ((false, some e), w1))
      ∧ (∀ e, e1 = none → d1 = some e → CheckAccess t a name L w = ((false, some e), w1))
      ∧ (∀ e, e1 = none → d1 = none → e2 = some e →
          CheckAccess t a name L w = ((false, some e), w2))
      ∧ (∀ e, e1 = none → d1 = none → e2 = none → d2 = some e →
          CheckAccess t a name L w = ((false, some e), w2))
      ∧ (e1 = none → d1 = none → e2 = none → d2 = none → countByName name l ≤ L →
          CheckAccess t a name L w = ((true, none), w2))
      ∧ (∀ e, e1 = none → d1 = none → e2 = none → d2 = none → ¬ countByName name l ≤ L →
          e3 = some e → CheckAccess t a name L w = ((false, some e), w3))
      ∧ (e1 = none → d1 = none → e2 = none → d2 = none → ¬ countByName name l ≤ L →
          e3 = none → CheckAccess t a name L w = ((false, none), w3))
      ∧ w1.log = w.log ++ [createRequest (checkAccessData a name)]
      ∧ w2.log = w1.log ++ [listRequest]
      ∧ w3.log = w2.log ++ [destroyRequest s.ID] := by
  have l1 := makeRequest_log t .PUT (getUrl (goString "session/create"))
      (some (jsonMarshalConsultParam (checkAccessData a name))) w
  have l2 := makeRequest_log t .GET (getUrl (goString "session/list")) none w1
  have l3 := makeRequest_log t .PUT (getUrl (goString "session/destroy/" ++ s.ID)) none w2
  rw [h1] at l1
  rw [h2] at l2
  rw [h3] at l3
  simp only [checkAccessData] at h1
  refine ⟨?_, ?_, ?_, ?_, ?_, ?_, ?_, ?_, l1, l2, l3⟩
  · cases e1 <;> cases d1 <;> cases e2 <;> cases d2 <;>
      by_cases hle : countByName name l ≤ L <;> cases e3 <;>
      simp [CheckAccess, createSession, sessionCount, sessionList, deleteSession,
        h1, hd1, h2, hd2, h3, hle]
  all_goals
    intros
    subst_vars
    simp [CheckAccess, createSession, sessionCount, sessionList, deleteSession,
        h1, hd1, h2, hd2, h3, *]

theorem toValidUTF8_goString (s : String) : toValidUTF8 (goString s) = s := by
  have h : (s.data.map GoUnit.rune).map GoUnit.coerce = s.data := by
    induction s.data with
    | nil => rfl
    | cons c cs ih => simp [GoUnit.coerce, ih]
  simp [toValidUTF8, goString, h]

theorem goString_injective {a b : String} (h : goString a = goString b) : a = b := by
  have h2 := congrArg toValidUTF8 h
  simpa [toValidUTF8_goString] using h2

theorem validUTF8_goString (s : String) : validUTF8 (goString s) = true := by
  simp only [goString]
  induction s.data with
  | nil => rfl
  | cons c cs ih => simpa [validUTF8] using ih

theorem goString_toValidUTF8 (g : GoString) (h : validUTF8 g = true) :
    goString (toValidUTF8 g) = g := by
  induction g with
  | nil => rfl
  | cons u us ih =>
    cases u with
    | rune c =>
      have h2 : validUTF8 us = true := by simpa [validUTF8] using h
      have ih2 := ih h2
      simp only [goString, toValidUTF8, List.map_cons, GoUnit.coerce] at ih2 ⊢
      rw [ih2]
    | byte b => simp [validUTF8] at h

theorem goString_toValidUTF8_iff (g : GoString) :
    goString (toValidUTF8 g) = g ↔ validUTF8 g = true := by
  constructor
  · intro h
    rw [← h]
    exact validUTF8_goString _
  · exact goString_toValidUTF8 g

theorem toValidUTF8_nil : toValidUTF8 [] = "" := rfl

theorem decodeStrings_map_str (l : List String) (old : List GoString) :
    decodeStrings (l.map JSON.str) old = (l.map goString, none) := by
  induction l generalizing old with
  | nil => rfl
  | cons x xs ih => simp [decodeStrings, decodeString, firstErr, ih]

theorem findField_names :
    findField "ID" = some .ID ∧ findField "Name" = some .Name ∧ findField "Node" = some .Node
      ∧ findField "Checks" = some .Checks ∧ findField "LockDelay" = some .LockDelay
      ∧ findField "Behavior" = some .Behavior ∧ findField "TTL" = some .TTL
      ∧ findField "CreateIndex" = some .CreateIndex
      ∧ findField "ModifyIndex" = some .ModifyIndex := by
  decide

theorem decodeSession_sessionJSON (t : Lease) (s0 : Session) :
    decodeSession (sessionJSON t) s0 = (t.toSession, none) := by
  obtain ⟨f1, f2, f3, f4, f5, f6, f7, f8, f9⟩ := findField_names
  simp only [sessionJSON, decodeSession, decodeMembers, f1, f2, f3, f4, f5, f6, f7, f8, f9,
    setField, decodeString, decodeInt64, decodeStringSlice, decodeStrings_map_str, firstErr,
    t.LockDelay.property, t.CreateIndex.property, t.ModifyIndex.property, dite_true,
    and_self, Lease.toSession]

theorem decodeSessions_map (l : List Lease) :
    decodeSessions (l.map sessionJSON) = (l.map Lease.toSession, none) := by
  induction l with
  | nil => rfl
  | cons x xs ih => simp [decodeSessions, decodeSession_sessionJSON, firstErr, ih]

theorem stripPrefix_append (p s : GoString) : stripPrefix p (p ++ s) = some s := by
  induction p with
  | nil => cases s <;> rfl
  | cons c cs ih => simp [stripPrefix, ih]

theorem route_createRequest (d : ConsultParam) : route (createRequest d) = .create := by
  have h1 : stripPrefix (getUrl (goString "session/destroy/"))
      (getUrl (goString "session/create")) = none := by decide
  have h2 : stripPrefix (getUrl (goString "session/renew/"))
      (getUrl (goString "session/create")) = none := by decide
  simp [route, createRequest, h1, h2]

theorem route_listRequest : route listRequest = .list := by
  simp [route, listRequest]

theorem getUrl_append (p id : GoString) : getUrl (p ++ id) = getUrl p ++ id := by
  simp [getUrl, List.append_assoc]

theorem route_destroyRequest (id : GoString) : route (destroyRequest id) = .destroy id := by
  simp [route, destroyRequest, getUrl_append, stripPrefix_append]

theorem stripPrefix_destroy_renew (id : GoString) :
    stripPrefix (getUrl (goString "session/destroy/")) (getUrl (goString "session/renew/" ++ id))
      = none := by
  have h : getUrl (goString "session/renew/" ++ id)
      = getUrl (goString "session/") ++ (GoUnit.rune 'r' :: (goString "enew/" ++ id)) := by
    rw [getUrl_append]
    have h0 : getUrl (goString "session/renew/")
        = getUrl (goString "session/") ++ (GoUnit.rune 'r' :: goString "enew/") := by decide
    rw [h0]
    simp [List.append_assoc]
  have hp : getUrl (goString "session/destroy/")
      = getUrl (goString "session/") ++ goString "destroy/" := by
    decide
  rw [h, hp]
  generalize getUrl (goString "session/") = p
  induction p with
  | nil => simp [stripPrefix, goString]
  | cons c cs ih => simpa [stripPrefix] using ih

theorem route_renewRequest (s : Session) : route (renewRequest s) = .renew s.ID := by
  have h0 := stripPrefix_destroy_renew s.ID
  simp only [route, renewRequest, h0]
  simp [getUrl_append, stripPrefix_append]

theorem length_le_maxIDLength (leases : List Lease) (s : Lease) (h : s ∈ leases) :
    s.ID.length ≤ maxIDLength leases := by
  induction leases with
  | nil => cases h
  | cons x xs ih =>
    simp only [maxIDLength]
    rcases List.mem_cons.mp h with h1 | h1
    · subst h1
      exact Nat.le_max_left _ _
    · exact Nat.le_trans (ih h1) (Nat.le_max_right _ _)

theorem freshID_fresh (leases : List Lease) (s : Lease) (h : s ∈ leases) :
    s.ID ≠ freshID leases := by
  intro he
  have h1 := length_le_maxIDLength leases s h
  have h2 : (freshID leases).length = maxIDLength leases + 1 := by
    simp [freshID, String.length]
  rw [he, h2] at h1
  omega

theorem goString_freshID_fresh (leases : List Lease) (s : Lease) (h : s ∈ leases) :
    goString s.ID ≠ goString (freshID leases) :=
  fun he => freshID_fresh leases s h (goString_injective he)

theorem filter_fresh (leases : List Lease) (id : GoString)
    (h : ∀ s ∈ leases, goString s.ID ≠ id) :
    leases.filter (fun s => decide (goString s.ID ≠ id)) = leases := by
  apply List.filter_eq_self.mpr
  intro s hs
  simpa using h s hs

theorem newLease_checkAccess (a : app) (name : GoString) (leases : List Lease) :
    newLease (some (jsonMarshalConsultParam (checkAccessData a name))) leases
      = createdLease a name leases := by
  by_cases hn : name = [] <;> by_cases ht : a.TTL = [] <;>
    simp [newLease, jsonMarshalConsultParam, checkAccessData, omitEmptyString, bodyString,
      bodyStrings, hn, ht, createdLease, toValidUTF8_nil]

theorem consul_createSession (a : app) (data : ConsultParam) (w : World Consul) :
    createSession consul a data w
      = (((newLease (some (jsonMarshalConsultParam data)) w.svc.leases).toSession, none),
          { svc := { leases := w.svc.leases
                      ++ [newLease (some (jsonMarshalConsultParam data)) w.svc.leases] },
            log := w.log ++ [createRequest data] }) := by
  have hr := route_createRequest data
  simp only [createRequest] at hr
  simp [createSession, makeRequest, consul, consulServe, hr, jsonUnmarshalSession,
    decodeSession_sessionJSON, createRequest]

theorem consul_sessionCount (a : app) (name : GoString) (w : World Consul) :
    sessionCount consul a name w
      = ((countByName name (w.svc.leases.map Lease.toSession), none),
          { svc := w.svc, log := w.log ++ [listRequest] }) := by
  have hr := route_listRequest
  simp only [listRequest] at hr
  simp [sessionCount, sessionList, makeRequest, consul, consulServe, hr,
    jsonUnmarshalSessions, decodeSessions_map, listRequest]

theorem consul_deleteSession (a : app) (id : GoString) (w : World Consul) :
    deleteSession consul a id w
      = (none, { svc := { leases := w.svc.leases.filter
                            (fun s => decide (goString s.ID ≠ id)) },
                 log := w.log ++ [destroyRequest id] }) := by
  have hr := route_destroyRequest id
  simp only [destroyRequest] at hr
  simp [deleteSession, makeRequest, consul, consulServe, hr, destroyRequest]

theorem countByName_eq_filter_length (name : GoString) (l : List Session) :
    countByName name l = ((l.filter (fun x => decide (x.Name = name))).length : Int) := by
  induction l with
  | nil => simp [countByName]
  | cons s rest ih =>
    by_cases h : s.Name = name
    · simp [countByName, h, ih]
    · simp [countByName, h, ih]

theorem countByName_toSession (name : GoString) (leases : List Lease) :
    countByName name (leases.map Lease.toSession)
      = (leasesNamed name { leases := leases } : Int) := by
  induction leases with
  | nil => simp [countByName, leasesNamed]
  | cons s rest ih =>
    simp only [leasesNamed] at ih
    by_cases h : goString s.Name = name
    · simp [countByName, leasesNamed, Lease.toSession, h, ih]
    · simp [countByName, leasesNamed, Lease.toSession, h, ih]

theorem sessionCount_of_list {σ : Type} (t : Transport σ) (a : app) (name : GoString)
    (w1 w2 : World σ) (body : Bytes) (list : List Session)
    (hl : sessionList t a w1 = ((body, none), w2))
    (hd : jsonUnmarshalSessions body = (list, none)) :
    sessionCount t a name w1 = ((countByName name list, none), w2) := by
  simp [sessionCount, hl, hd]

theorem leasesNamed_append_created (a : app) (name : GoString) (leases : List Lease) :
    leasesNamed name { leases := leases ++ [createdLease a name leases] }
      = leasesNamed name { leases := leases }
          + (if validUTF8 name = true then 1 else 0) := by
  by_cases hv : validUTF8 name = true
  · have h := goString_toValidUTF8 name hv
    simp [leasesNamed, List.filter_append, createdLease, h, hv]
  · have h : ¬ goString (toValidUTF8 name) = name :=
      fun he => hv ((goString_toValidUTF8_iff name).mp he)
    simp [leasesNamed, List.filter_append, createdLease, h, hv]

theorem consul_CheckAccess (a : app) (name : GoString) (L : Int) (w : World Consul) :
    CheckAccess consul a name L w
      = if (leasesNamed name w.svc : Int) + (if validUTF8 name = true then 1 else 0) ≤ L then
          ((true, none),
            { svc := { leases := w.svc.leases ++ [createdLease a name w.svc.leases] },
              log := w.log ++ [createRequest (checkAccessData a name), listRequest] })
        else
          ((false, none),
            { svc := { leases := w.svc.leases },
              log := w.log ++ [createRequest (checkAccessData a name), listRequest,
                destroyRequest (goString (freshID w.svc.leases))] }) := by
  have hc := consul_createSession a (checkAccessData a name) w
  rw [newLease_checkAccess] at hc
  simp only [checkAccessData] at hc
  have hfilter : (w.svc.leases ++ [createdLease a name w.svc.leases]).filter
      (fun s => decide (goString s.ID ≠ goString (freshID w.svc.leases))) = w.svc.leases := by
    rw [List.filter_append, filter_fresh w.svc.leases _ (goString_freshID_fresh w.svc.leases)]
    simp [createdLease]
  have hcount : countByName name
      ((w.svc.leases ++ [createdLease a name w.svc.leases]).map Lease.toSession)
      = (leasesNamed name w.svc : Int) + (if validUTF8 name = true then 1 else 0) := by
    rw [countByName_toSession, leasesNamed_append_created]
    have hsvc : ({ leases := w.svc.leases } : Consul) = w.svc := rfl
    rw [hsvc]
    split <;> simp
  have hid : (createdLease a name w.svc.leases).toSession.ID
      = goString (freshID w.svc.leases) := rfl
  simp only [CheckAccess, hc, consul_sessionCount, consul_deleteSession, hcount, hid]
  by_cases hle : (leasesNamed name w.svc : Int) + (if validUTF8 name = true then 1 else 0) ≤ L
  · simp [hle, checkAccessData]
  · simp only [hle, if_false, hfilter]
    simp [checkAccessData]

theorem consul_CheckAccessSeq (a : app) (name : GoString) (L : Int) (hL : 0 ≤ L)
    (hv : validUTF8 name = true) (n : Nat) :
    ∀ w : World Consul, leasesNamed name w.svc ≤ L.toNat →
      (CheckAccessSeq consul a name L n w).1
          = List.replicate (min n (L.toNat - leasesNamed name w.svc)) (true, none)
            ++ List.replicate (n - min n (L.toNat - leasesNamed name w.svc)) (false, none)
        ∧ leasesNamed name (CheckAccessSeq consul a name L n w).2.svc
          = leasesNamed name w.svc + min n (L.toNat - leasesNamed name w.svc) := by
  induction n with
  | zero => intro w _; simp [CheckAccessSeq]
  | succ k ih =>
    intro w hw
    simp only [CheckAccessSeq]
    rw [consul_CheckAccess]
    simp only [hv, if_true, Nat.cast_one]
    by_cases hle : (leasesNamed name w.svc : Int) + 1 ≤ L
    · have hlt : leasesNamed name w.svc + 1 ≤ L.toNat := by omega
      simp only [hle, if_true]
      have hnew := leasesNamed_append_created a name w.svc.leases
      simp only [hv, if_true] at hnew
      have hsvc : ({ leases := w.svc.leases } : Consul) = w.svc := rfl
      rw [hsvc] at hnew
      obtain ⟨ih1, ih2⟩ := ih
        { svc := { leases := w.svc.leases ++ [createdLease a name w.svc.leases] },
          log := w.log ++ [createRequest (checkAccessData a name), listRequest] }
        (by simp only [hnew]; exact hlt)
      simp only [hnew] at ih1 ih2
      rw [ih1, ih2]
      have e1 : min (k + 1) (L.toNat - leasesNamed name w.svc)
          = min k (L.toNat - (leasesNamed name w.svc + 1)) + 1 := by omega
      have e2 : k + 1 - (min k (L.toNat - (leasesNamed name w.svc + 1)) + 1)
          = k - min k (L.toNat - (leasesNamed name w.svc + 1)) := by omega
      rw [e1, e2]
      constructor
      · simp [List.replicate_succ]
      · omega
    · have heq : L.toNat - leasesNamed name w.svc = 0 := by omega
      simp only [hle, if_false]
      have hsvc : ({ leases := w.svc.leases } : Consul) = w.svc := rfl
      obtain ⟨ih1, ih2⟩ := ih
        { svc := { leases := w.svc.leases },
          log := w.log ++ [createRequest (checkAccessData a name), listRequest,
            destroyRequest (goString (freshID w.svc.leases))] }
        (by simpa [hsvc] using hw)
      simp only [hsvc, heq] at ih1 ih2
      rw [ih1, ih2, heq]
      simp [List.replicate_succ]

/-- Counterexample to C2: the resource name `"\xff"` is not valid UTF-8; the
request carries it as U+FFFD, so no listed lease ever has the name the count
compares with, and at limit 0 on the empty service all three sequential calls
are admitted, where the claim admits none. -/
theorem checkAccessSeq_invalid_name_counterexample :
    (0 : Int) ≤ 0 ∧ leasesNamed badName emptyWorld.svc = 0
      ∧ (CheckAccessSeq consul exampleApp badName 0 3 emptyWorld).1
          = [(true, none), (true, none), (true, none)]
      ∧ (CheckAccessSeq consul exampleApp badName 0 3 emptyWorld).2.svc.leases.map
            (fun l => l.Name)
          = [toValidUTF8 badName, toValidUTF8 badName, toValidUTF8 badName] := by
  refine ⟨by decide, by decide, by decide, by decide⟩

/-- Claim C2, amended. Against the model service, for a resource name that is
valid UTF-8, from a state with no lease of that name and with a capacity limit
`L ≥ 0`, `n` sequential calls of `CheckAccess` admit exactly the first
`min n L` calls and reject the rest, all with a nil error; the admitted count
never exceeds `L`, and exactly `min n L` leases of that name remain, as a
subsequent `sessionCount` reports. -/
theorem checkAccessSeq_admits_first_min (a : app) (name : GoString) (L : Int) (n : Nat)
    (w : World Consul) (hv : validUTF8 name = true) (hL : 0 ≤ L)
    (h0 : leasesNamed name w.svc = 0) :
    (CheckAccessSeq consul a name L n w).1
        = List.replicate (min n L.toNat) (true, none)
          ++ List.replicate (n - min n L.toNat) (false, none)
      ∧ (((CheckAccessSeq consul a name L n w).1.filter (fun r => r.1)).length : Int) ≤ L
      ∧ leasesNamed name (CheckAccessSeq consul a name L n w).2.svc = min n L.toNat
      ∧ (sessionCount consul a name (CheckAccessSeq consul a name L n w).2).1
          = (((min n L.toNat : Nat) : Int), none) := by
  obtain ⟨h1, h2⟩ := consul_CheckAccessSeq a name L hL hv n w (by omega)
  simp only [h0, Nat.sub_zero, Nat.zero_add] at h1 h2
  refine ⟨h1, ?_, h2, ?_⟩
  · rw [h1]
    simp [List.filter_append, List.filter_replicate]
    omega
  · rw [consul_sessionCount, countByName_toSession]
    have hsvc : ({ leases := (CheckAccessSeq consul a name L n w).2.svc.leases } : Consul)
        = (CheckAccessSeq consul a name L n w).2.svc := rfl
    rw [hsvc, h2]

theorem createSession_log {σ : Type} (t : Transport σ) (a : app) (data : ConsultParam)
    (w : World σ) :
    (createSession t a data w).2.log = w.log ++ [createRequest data] := by
  have h := makeRequest_log t .PUT (getUrl (goString "session/create"))
    (some (jsonMarshalConsultParam data)) w
  simp only [createSession]
  split
  · exact h
  · split <;> exact h

theorem sessionCount_log {σ : Type} (t : Transport σ) (a : app) (name : GoString)
    (w : World σ) :
    (sessionCount t a name w).2.log = w.log ++ [listRequest] := by
  have h := makeRequest_log t .GET (getUrl (goString "session/list")) none w
  have h2 : (sessionList t a w).2.log = w.log ++ [listRequest] := by
    simp only [sessionList]
    split <;> exact h
  simp only [sessionCount]
  split
  · exact h2
  · split <;> exact h2

theorem deleteSession_log {σ : Type} (t : Transport σ) (a : app) (sID : GoString)
    (w : World σ) :
    (deleteSession t a sID w).2.log = w.log ++ [destroyRequest sID] := by
  have h := makeRequest_log t .PUT (getUrl (goString "session/destroy/" ++ sID)) none w
  simp only [deleteSession]
  split <;> exact h

theorem reNewSession_log {σ : Type} (t : Transport σ) (a : app) (session : Session)
    (w : World σ) :
    (reNewSession t a session w).2.log = w.log ++ [renewRequest session] := by
  have h := makeRequest_log t .PUT (getUrl (goString "session/renew/" ++ session.ID)) none w
  simp only [reNewSession]
  split
  · exact h
  · split <;> exact h

/-- Claim C3. A call of `CheckAccess` that rejects (create and list succeed, the
count exceeds the limit) makes exactly three requests: create, list and one
destroy whose target is the ID of the lease this call created, and returns
`false` with the error of that destroy (nil when it succeeds). On the model
service such a call returns `(false, nil)`, the leases afterwards are exactly
the leases before, none of them has the ID of the created lease, and a
subsequent list decodes to the sessions of the leases before. -/
theorem checkAccess_reject_destroys_created_lease :
    (∀ {σ : Type} (t : Transport σ) (a : app) (name : GoString) (L : Int)
        (w w1 w2 : World σ) (s : Session) (c : Int),
        createSession t a (checkAccessData a name) w = ((s, none), w1) →
        sessionCount t a name w1 = ((c, none), w2) →
        L < c →
        (CheckAccess t a name L w).2.log
            = w.log ++ [createRequest (checkAccessData a name), listRequest,
                destroyRequest s.ID]
          ∧ (CheckAccess t a name L w).2 = (deleteSession t a s.ID w2).2
          ∧ (CheckAccess t a name L w).1 = (false, (deleteSession t a s.ID w2).1))
      ∧ (∀ (a : app) (name : GoString) (L : Int) (w : World Consul),
        (CheckAccess consul a name L w).1.1 = false →
        (CheckAccess consul a name L w).1 = (false, none)
          ∧ (createSession consul a (checkAccessData a name) w).1
              = ((createdLease a name w.svc.leases).toSession, none)
          ∧ (CheckAccess consul a name L w).2.log
              = w.log ++ [createRequest (checkAccessData a name), listRequest,
                  destroyRequest (createdLease a name w.svc.leases).toSession.ID]
          ∧ (CheckAccess consul a name L w).2.svc.leases = w.svc.leases
          ∧ (∀ s ∈ (CheckAccess consul a name L w).2.svc.leases,
              s.ID ≠ (createdLease a name w.svc.leases).ID)
          ∧ jsonUnmarshalSessions (sessionList consul a (CheckAccess consul a name L w).2).1.1
              = (w.svc.leases.map Lease.toSession, none)) := by
  constructor
  · intro σ t a name L w w1 w2 s c hc hn hlt
    have l1 := createSession_log t a (checkAccessData a name) w
    have l2 := sessionCount_log t a name w1
    have l3 := deleteSession_log t a s.ID w2
    rw [hc] at l1
    rw [hn] at l2
    simp only [checkAccessData] at hc
    have hnle : ¬ c ≤ L := by omega
    have hout : CheckAccess t a name L w
        = ((false, (deleteSession t a s.ID w2).1), (deleteSession t a s.ID w2).2) := by
      simp only [CheckAccess, hc, hn, hnle, if_false]
      cases hd : (deleteSession t a s.ID w2).1 <;> rfl
    rw [hout]
    refine ⟨?_, rfl, rfl⟩
    have l1b : w1.log = w.log ++ [createRequest (checkAccessData a name)] := l1
    have l2b : w2.log = w1.log ++ [listRequest] := l2
    simp only [l3, l2b, l1b, List.append_assoc, List.singleton_append, List.cons_append,
      List.nil_append]
  · intro a name L w hrej
    have hca := consul_CheckAccess a name L w
    have hcs := consul_createSession a (checkAccessData a name) w
    rw [newLease_checkAccess] at hcs
    by_cases hle : (leasesNamed name w.svc : Int)
        + (if validUTF8 name = true then 1 else 0) ≤ L
    · rw [hca] at hrej
      simp [hle] at hrej
    · simp only [hle, if_false] at hca
      rw [hca]
      refine ⟨rfl, ?_, rfl, rfl, ?_, ?_⟩
      · rw [hcs]
      · intro s hs
        exact freshID_fresh w.svc.leases s hs
      · have hr := route_listRequest
        simp only [listRequest] at hr
        simp [sessionList, makeRequest, consul, consulServe, hr, jsonUnmarshalSessions,
          decodeSessions_map]


/-- Claim C5, amended. An admitted call of `CheckAccess` returns exactly
`(true, nil)`: its create step succeeded, it made a create and a list request
and no destroy, so the created lease stays in the service, but the result
carries no lease, so every admitted call returns the same result. -/
theorem checkAccess_admit_result_is_true_nil {σ : Type} (t : Transport σ) (a : app) (name : GoString) (L : Int) (w : World σ)
    (hadm : (CheckAccess t a name L w).1.1 = true) :
    (CheckAccess t a name L w).1 = (true, none)
      ∧ (createSession t a (checkAccessData a name) w).1.2 = none
      ∧ (CheckAccess t a name L w).2.log
          = w.log ++ [createRequest (checkAccessData a name), listRequest]
      ∧ (∀ {τ : Type} (t2 : Transport τ) (a2 : app) (name2 : GoString) (L2 : Int)
          (w2 : World τ), (CheckAccess t2 a2 name2 L2 w2).1.1 = true →
            (CheckAccess t2 a2 name2 L2 w2).1 = (CheckAccess t a name L w).1) := by
  have key : ∀ {τ : Type} (t2 : Transport τ) (a2 : app) (name2 : GoString) (L2 : Int)
      (w2 : World τ), (CheckAccess t2 a2 name2 L2 w2).1.1 = true →
        (CheckAccess t2 a2 name2 L2 w2).1 = (true, none) := by
    intro τ t2 a2 name2 L2 w2 h
    simp only [CheckAccess] at h ⊢
    split at h
    · simp at h
    · split at h
      · simp at h
      · split at h
        · simp_all
        · split at h <;> simp at h
  refine ⟨key t a name L w hadm, ?_, ?_, ?_⟩
  · simp only [CheckAccess, checkAccessData] at hadm ⊢
    split at hadm
    · simp at hadm
    · assumption
  · have l1 := createSession_log t a (checkAccessData a name) w
    have l2 := sessionCount_log t a name (createSession t a (checkAccessData a name) w).2
    simp only [checkAccessData] at l1 l2
    simp only [CheckAccess, checkAccessData] at hadm ⊢
    split at hadm
    · simp at hadm
    · split at hadm
      · simp at hadm
      · split at hadm
        · simp_all
        · split at hadm <;> simp at hadm
  · intro τ t2 a2 name2 L2 w2 h
    rw [key t2 a2 name2 L2 w2 h, key t a name L w hadm]


/-- Counterexample to C5: two sequential admitted calls on the model service
create leases with different IDs (`x` and `xx`), yet both return the same
result `(true, nil)`: the result does not carry the created lease. -/
theorem checkAccess_result_omits_lease_counterexample :
    (createSession consul exampleApp (checkAccessData exampleApp dbWriter) emptyWorld).1
        = ((createdLease exampleApp dbWriter []).toSession, none)
      ∧ (createdLease exampleApp dbWriter []).toSession.ID = goString "x"
      ∧ (createSession consul exampleApp (checkAccessData exampleApp dbWriter)
          (CheckAccess consul exampleApp dbWriter 2 emptyWorld).2).1.1.ID = goString "xx"
      ∧ (CheckAccess consul exampleApp dbWriter 2 emptyWorld).1.1 = true
      ∧ (CheckAccess consul exampleApp dbWriter 2
          (CheckAccess consul exampleApp dbWriter 2 emptyWorld).2).1.1 = true
      ∧ (CheckAccess consul exampleApp dbWriter 2 emptyWorld).1
          = (CheckAccess consul exampleApp dbWriter 2
              (CheckAccess consul exampleApp dbWriter 2 emptyWorld).2).1 := by
  refine ⟨by decide, by decide, by decide, by decide, by decide, by decide⟩

/-- Witness for C5: on a service holding two leases named `db-writer` the call
is rejected at limit 2 and admitted with `(true, nil)` at limit 3. -/
theorem checkAccess_admit_result_is_true_nil_witness :
    (CheckAccess consul exampleApp dbWriter 2 busyWorld).1.1 = false
      ∧ (CheckAccess consul exampleApp dbWriter 3 busyWorld).1 = (true, none) :=
  ⟨by decide, (checkAccess_admit_result_is_true_nil consul exampleApp dbWriter 3 busyWorld (by decide)).1⟩


theorem listFault_createSession (reply : Except Err (Bytes × Option Err)) (a : app)
    (data : ConsultParam) (w : World Consul) :
    createSession (consulListFault reply) a data w = createSession consul a data w := by
  have hr := route_createRequest data
  simp only [createRequest] at hr
  simp [createSession, makeRequest, consul, consulListFault, hr]

theorem listFault_sessionCount (reply : Except Err (Bytes × Option Err)) (a : app)
    (name : GoString) (w : World Consul) (e : Err)
    (hfail : reply = .error e ∨ (∃ b, reply = .ok (b, some e))
      ∨ (∃ b l, reply = .ok (b, none) ∧ jsonUnmarshalSessions b = (l, some e))) :
    sessionCount (consulListFault reply) a name w
      = ((0, some e), { svc := w.svc, log := w.log ++ [listRequest] }) := by
  have hr := route_listRequest
  simp only [listRequest] at hr
  rcases hfail with h | ⟨b, h⟩ | ⟨b, l, h, hd⟩
  · subst h
    simp [sessionCount, sessionList, makeRequest, consulListFault, hr, listRequest]
  · subst h
    simp [sessionCount, sessionList, makeRequest, consulListFault, hr, listRequest]
  · subst h
    simp [sessionCount, sessionList, makeRequest, consulListFault, hr, listRequest, hd]

/-- Claim C9. When the create step of `CheckAccess` succeeds and the list step
fails (exchange or decoding), `CheckAccess` returns `false` with that error
after a create and a list request only: no destroy request is made and the
service is left as the list exchange left it. On the model service with a
failing list the lease just created is still among the leases afterwards. -/
theorem checkAccess_list_failure_keeps_lease :
    (∀ {σ : Type} (t : Transport σ) (a : app) (name : GoString) (L : Int)
        (w w1 : World σ) (s : Session) (e : Err),
        createSession t a (checkAccessData a name) w = ((s, none), w1) →
        (sessionCount t a name w1).1.2 = some e →
        CheckAccess t a name L w = ((false, some e), (sessionCount t a name w1).2)
          ∧ (CheckAccess t a name L w).2.log
              = w.log ++ [createRequest (checkAccessData a name), listRequest]
          ∧ (CheckAccess t a name L w).2.svc = (sessionList t a w1).2.svc)
      ∧ (∀ (a : app) (name : GoString) (L : Int) (w : World Consul)
        (reply : Except Err (Bytes × Option Err)) (e : Err),
        (reply = .error e ∨ (∃ b, reply = .ok (b, some e))
          ∨ (∃ b l, reply = .ok (b, none) ∧ jsonUnmarshalSessions b = (l, some e))) →
        CheckAccess (consulListFault reply) a name L w
          = ((false, some e),
              { svc := { leases := w.svc.leases ++ [createdLease a name w.svc.leases] },
                log := w.log ++ [createRequest (checkAccessData a name), listRequest] })) := by
  constructor
  · intro σ t a name L w w1 s e hc hn
    have l1 := createSession_log t a (checkAccessData a name) w
    have l2 := sessionCount_log t a name w1
    rw [hc] at l1
    have l1b : w1.log = w.log ++ [createRequest (checkAccessData a name)] := l1
    simp only [checkAccessData] at hc
    have hout : CheckAccess t a name L w
        = ((false, some e), (sessionCount t a name w1).2) := by
      simp only [CheckAccess, hc, hn]
    rw [hout]
    refine ⟨rfl, ?_, ?_⟩
    · simp only [l2, l1b, List.append_assoc, List.singleton_append]
    · simp only [sessionCount]
      split
      · rfl
      · split <;> rfl
  · intro a name L w reply e hfail
    have hc := listFault_createSession reply a (checkAccessData a name) w
    rw [consul_createSession, newLease_checkAccess] at hc
    simp only [checkAccessData] at hc
    simp only [CheckAccess, hc, listFault_sessionCount reply a name _ e hfail]
    simp [checkAccessData, createdLease]


theorem holdStep_no_cancel {σ : Type} (t : Transport σ) (a : app) (session : Session)
    (h h1 : Hold σ) (e : Event) (hne : e ≠ Event.cancel) (hc : h.cancelled = false)
    (hs : h.state = .Running) (hstep : holdStep t a session h e = some h1) :
    h1.state = .Running ∧ h1.cancelled = false
      ∧ h1.world.log = h.world.log
          ++ List.replicate (ticksTaken [e]) (renewRequest session) := by
  cases e with
  | tickFires =>
    simp only [holdStep, Option.some.injEq] at hstep
    subst hstep
    simp [hs, hc, ticksTaken]
  | cancel => exact absurd rfl hne
  | select c =>
    cases c with
    | tick =>
      simp only [holdStep] at hstep
      split at hstep
      · simp only [Option.some.injEq] at hstep
        subst hstep
        simp [hc, ticksTaken, reNewSession_log]
      · simp at hstep
    | done =>
      simp only [holdStep] at hstep
      split at hstep
      · rename_i hcond
        rw [hc] at hcond
        simp at hcond
      · simp at hstep

theorem holdRun_no_cancel {σ : Type} (t : Transport σ) (a : app) (session : Session)
    (events : List Event) :
    ∀ (h h1 : Hold σ), Event.cancel ∉ events → h.cancelled = false → h.state = .Running →
      holdRun t a session events h = some h1 →
      h1.state = .Running
        ∧ h1.world.log = h.world.log
            ++ List.replicate (ticksTaken events) (renewRequest session) := by
  induction events with
  | nil =>
    intro h h1 _ _ hs hrun
    simp only [holdRun, Option.some.injEq] at hrun
    subst hrun
    simp [hs, ticksTaken]
  | cons e es ih =>
    intro h h1 hno hc hs hrun
    simp only [holdRun] at hrun
    split at hrun
    · simp at hrun
    · rename_i h2 hstep
      have hne : e ≠ Event.cancel := fun he => hno (by simp [he])
      have hno2 : Event.cancel ∉ es := fun hm => hno (by simp [hm])
      obtain ⟨s2, c2, l2⟩ := holdStep_no_cancel t a session h h2 e hne hc hs hstep
      obtain ⟨s1, l1⟩ := ih h2 h1 hno2 c2 s2 hrun
      refine ⟨s1, ?_⟩
      rw [l1, l2, List.append_assoc, ← List.replicate_add]
      congr 2
      cases e with
      | tickFires => simp [ticksTaken]
      | cancel => exact absurd rfl hne
      | select c => cases c <;> simp [ticksTaken, Nat.add_comm]

theorem holdRun_tickRounds {σ : Type} (t : Transport σ) (a : app) (session : Session)
    (n : Nat) :
    ∀ (w : World σ) (c : Bool), ∃ h,
      holdRun t a session (tickRounds n)
          { state := .Running, tickPending := false, cancelled := c, world := w } = some h
        ∧ h.state = .Running
        ∧ h.world.log = w.log ++ List.replicate n (renewRequest session) := by
  induction n with
  | zero =>
    intro w c
    exact ⟨_, rfl, rfl, by simp⟩
  | succ k ih =>
    intro w c
    obtain ⟨h, hr, hs, hl⟩ := ih (reNewSession t a session w).2 c
    refine ⟨h, ?_, hs, ?_⟩
    · simpa [tickRounds, holdRun, holdStep] using hr
    · rw [hl, reNewSession_log, List.append_assoc]
      simp [List.replicate_succ]

theorem holdRun_taken_le_fired {σ : Type} (t : Transport σ) (a : app) (session : Session)
    (events : List Event) :
    ∀ (h h1 : Hold σ), holdRun t a session events h = some h1 →
      ticksTaken events + (if h1.tickPending = true then 1 else 0)
        ≤ ticksFired events + (if h.tickPending = true then 1 else 0) := by
  induction events with
  | nil =>
    intro h h1 hrun
    simp only [holdRun, Option.some.injEq] at hrun
    subst hrun
    simp [ticksTaken, ticksFired]
  | cons e es ih =>
    intro h h1 hrun
    simp only [holdRun] at hrun
    split at hrun
    · simp at hrun
    · rename_i h2 hstep
      have ih2 := ih h2 h1 hrun
      cases e with
      | tickFires =>
        simp only [holdStep, Option.some.injEq] at hstep
        subst hstep
        simp only [ticksTaken, ticksFired] at ih2 ⊢
        simp only [if_true] at ih2
        omega
      | cancel =>
        simp only [holdStep, Option.some.injEq] at hstep
        subst hstep
        simp only [ticksTaken, ticksFired] at ih2 ⊢
        exact ih2
      | select c =>
        cases c with
        | tick =>
          simp only [holdStep] at hstep
          split at hstep
          · rename_i hcond
            simp only [Option.some.injEq] at hstep
            subst hstep
            simp only [ticksTaken, ticksFired] at ih2 ⊢
            simp only [hcond.2, if_true]
            simp at ih2
            omega
          · simp at hstep
        | done =>
          simp only [holdStep] at hstep
          split at hstep
          · simp only [Option.some.injEq] at hstep
            subst hstep
            simp only [ticksTaken, ticksFired] at ih2 ⊢
            exact ih2
          · simp at hstep

/-- Counterexample to C7: the ticker fires twice before the loop runs; the
second firing finds a tick still waiting in `ticker.C` and is dropped, and the
loop then takes one tick and makes one renew request: two timer ticks, one
renewal attempt. -/
theorem sessionHold_dropped_tick_counterexample :
    ticksFired [Event.tickFires, Event.tickFires, Event.select .tick] = 2
      ∧ (holdRun consul exampleApp heldSession
          [Event.tickFires, Event.tickFires, Event.select .tick] heldLoop).map Hold.view
        = some (.Running, false,
            ["http://localhost:8500/v1/session/create", "http://localhost:8500/v1/session/list",
             "http://localhost:8500/v1/session/renew/x"])
      ∧ holdRun consul exampleApp heldSession
          [Event.tickFires, Event.tickFires, Event.select .tick, Event.select .tick] heldLoop
        = none := by
  refine ⟨by decide, by decide, by rfl⟩

/-- Claim C7, amended. In `SessionHold` every tick the loop receives from the
ticker makes exactly one call of `reNewSession` (one renew request for the
session) and leaves the loop Running, whatever the transport answers; after
`n` rounds of ticks the loop is Running and has made exactly `n` renew
requests; along every execution without cancellation the loop stays Running
and has made one renew request per tick received; the only step from Running
to Stopped is the done case of the `select`, which requires cancellation. A
tick that fires while an earlier one still waits is dropped, so the ticks
received never outnumber the ticks fired. -/
theorem sessionHold_tick_renews_once_stays_running {σ : Type} (t : Transport σ) (a : app) (session : Session) :
    (∀ (h h1 : Hold σ), holdStep t a session h (.select .tick) = some h1 →
        h1.state = .Running ∧ h1.world = (reNewSession t a session h.world).2
          ∧ h1.world.log = h.world.log ++ [renewRequest session])
      ∧ (∀ (n : Nat) (w : World σ), ∃ h,
          holdRun t a session (tickRounds n)
              { state := .Running, tickPending := false, cancelled := false, world := w }
            = some h
          ∧ h.state = .Running
          ∧ h.world.log = w.log ++ List.replicate n (renewRequest session))
      ∧ (∀ (events : List Event) (h h1 : Hold σ), Event.cancel ∉ events →
          h.cancelled = false → h.state = .Running →
          holdRun t a session events h = some h1 →
          h1.state = .Running
            ∧ h1.world.log = h.world.log
                ++ List.replicate (ticksTaken events) (renewRequest session))
      ∧ (∀ (h h1 : Hold σ) (e : Event), h.state = .Running →
          holdStep t a session h e = some h1 → h1.state = .Stopped →
          e = .select .done ∧ h.cancelled = true)
      ∧ (∀ (events : List Event) (h h1 : Hold σ),
          holdRun t a session events h = some h1 →
          ticksTaken events + (if h1.tickPending = true then 1 else 0)
            ≤ ticksFired events + (if h.tickPending = true then 1 else 0)) := by
  refine ⟨?_, fun n w => holdRun_tickRounds t a session n w false,
    holdRun_no_cancel t a session, ?_, holdRun_taken_le_fired t a session⟩
  · intro h h1 hstep
    simp only [holdStep] at hstep
    split at hstep
    · simp only [Option.some.injEq] at hstep
      subst hstep
      exact ⟨rfl, rfl, reNewSession_log t a session h.world⟩
    · simp at hstep
  · intro h h1 e hs hstep hstop
    cases e with
    | tickFires =>
      simp only [holdStep, Option.some.injEq] at hstep
      subst hstep
      rw [hs] at hstop
      cases hstop
    | cancel =>
      simp only [holdStep, Option.some.injEq] at hstep
      subst hstep
      rw [hs] at hstop
      cases hstop
    | select c =>
      cases c with
      | tick =>
        simp only [holdStep] at hstep
        split at hstep
        · simp only [Option.some.injEq] at hstep
          subst hstep
          cases hstop
        · simp at hstep
      | done =>
        simp only [holdStep] at hstep
        split at hstep
        · rename_i hcond
          exact ⟨rfl, hcond.2⟩
        · simp at hstep


/-- Claim C1. Whenever the create step and the list step of `CheckAccess` both
succeed (exchange and decoding), `sessionCount` returns exactly the number of
entries of the decoded list whose `Name` equals the resource name (equality of
whole strings), and `CheckAccess` returns `(true, nil)` if and only if that
number is at most the capacity limit. -/
theorem checkAccess_admits_iff_count_le {σ : Type} (t : Transport σ) (a : app) (name : GoString) (L : Int)
    (w w1 w2 : World σ) (s : Session) (body : Bytes) (list : List Session)
    (hc : createSession t a (checkAccessData a name) w = ((s, none), w1))
    (hl : sessionList t a w1 = ((body, none), w2))
    (hd : jsonUnmarshalSessions body = (list, none)) :
    sessionCount t a name w1
        = ((((list.filter (fun x => decide (x.Name = name))).length : Int), none), w2)
      ∧ ((CheckAccess t a name L w).1 = (true, none)
          ↔ ((list.filter (fun x => decide (x.Name = name))).length : Int) ≤ L) := by
  have hn := sessionCount_of_list t a name w1 w2 body list hl hd
  rw [countByName_eq_filter_length] at hn
  refine ⟨hn, ?_⟩
  simp only [checkAccessData] at hc
  simp only [CheckAccess, hc, hn]
  by_cases hle : ((list.filter (fun x => decide (x.Name = name))).length : Int) ≤ L
  · simp [hle]
  · simp only [hle, if_false, iff_false]
    cases hdel : (deleteSession t a s.ID w2).1 <;> simp

/-- Witness for C1: with two leases named `db-writer` among five similar names,
the call counts three (its own lease included) and is admitted at limit 3. -/
theorem checkAccess_admits_iff_count_le_witness :
    sessionCount consul exampleApp dbWriter
        (createSession consul exampleApp (checkAccessData exampleApp dbWriter) busyWorld).2
        = (((3 : Int), none),
            (sessionList consul exampleApp
              (createSession consul exampleApp (checkAccessData exampleApp dbWriter)
                busyWorld).2).2)
      ∧ ((CheckAccess consul exampleApp dbWriter 3 busyWorld).1 = (true, none)
          ↔ (3 : Int) ≤ 3) :=
  checkAccess_admits_iff_count_le consul exampleApp dbWriter 3 busyWorld _ _
    (createSession consul exampleApp (checkAccessData exampleApp dbWriter) busyWorld).1.1
    (sessionList consul exampleApp
      (createSession consul exampleApp (checkAccessData exampleApp dbWriter)
        busyWorld).2).1.1
    ((busyWorld.svc.leases
      ++ [createdLease exampleApp dbWriter busyWorld.svc.leases]).map Lease.toSession)
    rfl rfl (by decide)


/-- Claim C10, amended. For `1 ≤ UpdatePeriod ≤ 9223372036` the ticker interval
of `SessionHold` is exactly `UpdatePeriod * 10^9` nanoseconds, positive and
without overflow, and `SessionHold` enters its loop. For
`-9223372036 ≤ UpdatePeriod ≤ 0` the interval is `UpdatePeriod * 10^9 ≤ 0` and
`SessionHold` panics in `NewTicker` before any event is handled; this is the
case of the app returned by `New`. -/
theorem tickerInterval_exact_or_newTicker_panics (a : app) :
    (1 ≤ a.UpdatePeriod → a.UpdatePeriod ≤ 9223372036 →
        tickerInterval a = a.UpdatePeriod * 1000000000 ∧ 0 < tickerInterval a
          ∧ tickerInterval a < 2 ^ 63
          ∧ ∀ {σ : Type} (ctxDone : Bool) (w : World σ),
              holdEnter a ctxDone w
                = .ok { state := .Running, tickPending := false, cancelled := ctxDone,
                        world := w })
      ∧ (-9223372036 ≤ a.UpdatePeriod → a.UpdatePeriod ≤ 0 →
        tickerInterval a = a.UpdatePeriod * 1000000000 ∧ tickerInterval a ≤ 0
          ∧ ∀ {σ : Type} (t : Transport σ) (session : Session) (ctxDone : Bool)
              (events : List Event) (w : World σ),
              SessionHold t a session ctxDone events w
                = .error "non-positive interval for NewTicker")
      ∧ (∀ {σ : Type} (t : Transport σ) (session : Session) (ctxDone : Bool)
          (events : List Event) (w : World σ),
          SessionHold t New session ctxDone events w
            = .error "non-positive interval for NewTicker") := by
  refine ⟨?_, ?_, ?_⟩
  · intro h1 h2
    have hi : tickerInterval a = a.UpdatePeriod * 1000000000 := by
      simp only [tickerInterval, wrap64, Second]
      omega
    have hpos : 0 < tickerInterval a := by rw [hi]; omega
    refine ⟨hi, hpos, by rw [hi]; omega, ?_⟩
    intro σ ctxDone w
    have hn : ¬ tickerInterval a ≤ 0 := by omega
    simp [holdEnter, NewTicker, hn]
  · intro h1 h2
    have hi : tickerInterval a = a.UpdatePeriod * 1000000000 := by
      simp only [tickerInterval, wrap64, Second]
      omega
    have hle : tickerInterval a ≤ 0 := by rw [hi]; omega
    refine ⟨hi, hle, ?_⟩
    intro σ t session ctxDone events w
    simp [SessionHold, holdEnter, NewTicker, hle]
  · intro σ t session ctxDone events w
    have hle : tickerInterval New ≤ 0 := by decide
    simp [SessionHold, holdEnter, NewTicker, hle]

/-- Counterexample to C10: for `UpdatePeriod = -9223372037`, which is not
positive, the `int64` product wraps to a positive interval, `NewTicker` does
not panic and the loop runs and renews. -/
theorem tickerInterval_wraps_positive_counterexample :
    ({ TTL := [], UpdatePeriod := -9223372037 } : app).UpdatePeriod ≤ 0
      ∧ tickerInterval { TTL := [], UpdatePeriod := -9223372037 } = 9223372036709551616
      ∧ (SessionHold consul { TTL := [], UpdatePeriod := -9223372037 } heldSession false
          [Event.tickFires, Event.select .tick] heldWorld).map (fun o => o.map Hold.view)
        = .ok (some (.Running, false,
            ["http://localhost:8500/v1/session/create", "http://localhost:8500/v1/session/list",
             "http://localhost:8500/v1/session/renew/x"])) := by
  refine ⟨by decide, by decide, by rfl⟩


theorem holdStep_stopped {σ : Type} (t : Transport σ) (a : app) (session : Session)
    (h h1 : Hold σ) (e : Event) (hs : h.state = .Stopped)
    (hstep : holdStep t a session h e = some h1) :
    h1.state = .Stopped ∧ h1.world = h.world := by
  cases e with
  | tickFires =>
    simp only [holdStep, Option.some.injEq] at hstep
    subst hstep
    exact ⟨hs, rfl⟩
  | cancel =>
    simp only [holdStep, Option.some.injEq] at hstep
    subst hstep
    exact ⟨hs, rfl⟩
  | select c =>
    cases c <;> simp [holdStep, hs] at hstep

theorem holdRun_stopped {σ : Type} (t : Transport σ) (a : app) (session : Session)
    (events : List Event) :
    ∀ (h h1 : Hold σ), h.state = .Stopped → holdRun t a session events h = some h1 →
      h1.state = .Stopped ∧ h1.world = h.world := by
  induction events with
  | nil =>
    intro h h1 hs hrun
    simp only [holdRun, Option.some.injEq] at hrun
    subst hrun
    exact ⟨hs, rfl⟩
  | cons e es ih =>
    intro h h1 hs hrun
    simp only [holdRun] at hrun
    split at hrun
    · simp at hrun
    · rename_i h2 hstep
      obtain ⟨s2, w2⟩ := holdStep_stopped t a session h h2 e hs hstep
      obtain ⟨s1, w1⟩ := ih h2 h1 s2 hrun
      exact ⟨s1, w1.trans w2⟩

theorem holdStep_cancelled_quiet {σ : Type} (t : Transport σ) (a : app) (session : Session)
    (h h1 : Hold σ) (e : Event) (hc : h.cancelled = true) (hp : h.tickPending = false)
    (hne : e ≠ Event.tickFires) (hstep : holdStep t a session h e = some h1) :
    h1.cancelled = true ∧ h1.tickPending = false ∧ h1.world = h.world := by
  cases e with
  | tickFires => exact absurd rfl hne
  | cancel =>
    simp only [holdStep, Option.some.injEq] at hstep
    subst hstep
    exact ⟨rfl, hp, rfl⟩
  | select c =>
    cases c with
    | tick => simp [holdStep, hp] at hstep
    | done =>
      simp only [holdStep] at hstep
      split at hstep
      · simp only [Option.some.injEq] at hstep
        subst hstep
        exact ⟨hc, hp, rfl⟩
      · simp at hstep

theorem holdRun_cancelled_quiet {σ : Type} (t : Transport σ) (a : app) (session : Session)
    (events : List Event) :
    ∀ (h h1 : Hold σ), h.cancelled = true → h.tickPending = false →
      Event.tickFires ∉ events → holdRun t a session events h = some h1 →
      h1.world = h.world := by
  induction events with
  | nil =>
    intro h h1 _ _ _ hrun
    simp only [holdRun, Option.some.injEq] at hrun
    subst hrun
    rfl
  | cons e es ih =>
    intro h h1 hc hp hno hrun
    simp only [holdRun] at hrun
    split at hrun
    · simp at hrun
    · rename_i h2 hstep
      have hne : e ≠ Event.tickFires := fun he => hno (by simp [he])
      have hno2 : Event.tickFires ∉ es := fun hm => hno (by simp [hm])
      obtain ⟨c2, p2, w2⟩ := holdStep_cancelled_quiet t a session h h2 e hc hp hne hstep
      exact (ih h2 h1 c2 p2 hno2 hrun).trans w2

/-- Claim C6, amended. Once `SessionHold` has observed cancellation it is
Stopped; Stopped is terminal and no request is made from it. When
cancellation is signalled while no tick is pending the tick case cannot
proceed and the loop stops, and as long as no tick fires no request is made
after the signal. When a tick is pending together with the cancellation the
tick case can still proceed, and then one renew request is made. -/
theorem sessionHold_stopped_terminal_quiet {σ : Type} (t : Transport σ) (a : app) (session : Session) :
    (∀ (events : List Event) (h h1 : Hold σ), h.state = .Stopped →
        holdRun t a session events h = some h1 →
        h1.state = .Stopped ∧ h1.world = h.world)
      ∧ (∀ (h : Hold σ) (c : Selected), h.state = .Stopped →
          holdStep t a session h (.select c) = none)
      ∧ (∀ (h : Hold σ), h.state = .Running → h.cancelled = true → h.tickPending = false →
          holdStep t a session h (.select .tick) = none
            ∧ holdStep t a session h (.select .done)
                = some { state := .Stopped, tickPending := false, cancelled := true,
                         world := h.world })
      ∧ (∀ (events : List Event) (h h1 : Hold σ), h.cancelled = true →
          h.tickPending = false → Event.tickFires ∉ events →
          holdRun t a session events h = some h1 → h1.world = h.world)
      ∧ (∀ (h : Hold σ), h.state = .Running → h.cancelled = true → h.tickPending = true →
          ∃ h1, holdStep t a session h (.select .tick) = some h1
            ∧ h1.state = .Running ∧ h1.cancelled = true
            ∧ h1.world.log = h.world.log ++ [renewRequest session]) := by
  refine ⟨holdRun_stopped t a session, ?_, ?_, holdRun_cancelled_quiet t a session, ?_⟩
  · intro h c hs
    cases c <;> simp [holdStep, hs]
  · intro h hs hc hp
    simp [holdStep, hs, hc, hp]
  · intro h hs hc hp
    refine ⟨{ state := .Running, tickPending := false, cancelled := h.cancelled,
              world := (reNewSession t a session h.world).2 }, ?_, rfl, hc, ?_⟩
    · simp only [holdStep, hs, hp, and_self, if_true]
    · exact reNewSession_log t a session h.world

/-- Counterexample to C6: the ticker fires, then the context is cancelled before
the loop runs; both cases of the `select` are ready, the loop takes the tick
case and sends a renew request after the cancellation signal. -/
theorem sessionHold_renews_after_cancel_counterexample :
    (holdRun consul exampleApp heldSession [Event.tickFires, Event.cancel] heldLoop).map
        Hold.view
        = some (.Running, true,
            ["http://localhost:8500/v1/session/create", "http://localhost:8500/v1/session/list"])
      ∧ (holdRun consul exampleApp heldSession
          [Event.tickFires, Event.cancel, Event.select .tick] heldLoop).map Hold.view
        = some (.Running, true,
            ["http://localhost:8500/v1/session/create", "http://localhost:8500/v1/session/list",
             "http://localhost:8500/v1/session/renew/x"]) := by
  refine ⟨by decide, by decide⟩


theorem decodeStrings_map_coerce (l : List GoString) (old : List GoString) :
    decodeStrings (l.map (fun c => JSON.str (toValidUTF8 c))) old
      = (l.map (fun c => goString (toValidUTF8 c)), none) := by
  induction l generalizing old with
  | nil => rfl
  | cons x xs ih => simp [decodeStrings, decodeString, firstErr, ih]

theorem goString_empty : goString "" = [] := rfl

theorem map_coerce_valid (l : List GoString) (h : ∀ c ∈ l, validUTF8 c = true) :
    l.map (fun c => goString (toValidUTF8 c)) = l := by
  induction l with
  | nil => rfl
  | cons x xs ih =>
    have hx := goString_toValidUTF8 x (h x (by simp))
    have hxs := ih (fun c hc => h c (by simp [hc]))
    simp [hx, hxs]

theorem decode_marshal_coerced (p : ConsultParam) (h0 : p.LockDelay = []) :
    jsonUnmarshalSession (some (jsonMarshalConsultParam p)) Session.zero
      = ({ ID := [], Name := goString (toValidUTF8 p.Name),
           Node := goString (toValidUTF8 p.Node),
           Checks := p.Checks.map (fun c => goString (toValidUTF8 c)),
           LockDelay := Int64.zero, Behavior := [], TTL := goString (toValidUTF8 p.TTL),
           CreateIndex := Int64.zero, ModifyIndex := Int64.zero }, none) := by
  obtain ⟨f1, f2, f3, f4, f5, f6, f7, f8, f9⟩ := findField_names
  by_cases h1 : p.Node = [] <;> by_cases h2 : p.Name = [] <;>
    by_cases h3 : p.Checks = [] <;> by_cases h4 : p.TTL = [] <;>
    simp [jsonUnmarshalSession, decodeSession, jsonMarshalConsultParam, omitEmptyString,
      decodeMembers, setField, decodeString, decodeStringSlice, decodeStrings_map_coerce,
      firstErr, Session.zero, f2, f3, f4, f7, h0, h1, h2, h3, h4, toValidUTF8_nil,
      goString_empty]

/-- Claim C8, amended. The encoding of a create-request record whose `LockDelay`
is empty decodes successfully into a `Session` that carries its `Name`,
`Node`, `Checks` and `TTL` as the encoding coerces them to valid UTF-8 (the
other fields zero). When those strings are valid UTF-8 the `Session` carries
them unchanged, and it agrees on those four fields with the `Session` decoded
from a service lease record carrying the same values for them, which decodes
to exactly the record; the two are equal in every field when the record has
no other field set. With a non-empty `LockDelay` the decoding fails with a
type error on `LockDelay`. -/
theorem lease_roundtrip_without_lockDelay (p : ConsultParam) :
    (p.LockDelay = [] →
        jsonUnmarshalSession (some (jsonMarshalConsultParam p)) Session.zero
            = ({ ID := [], Name := goString (toValidUTF8 p.Name),
                 Node := goString (toValidUTF8 p.Node),
                 Checks := p.Checks.map (fun c => goString (toValidUTF8 c)),
                 LockDelay := Int64.zero, Behavior := [],
                 TTL := goString (toValidUTF8 p.TTL),
                 CreateIndex := Int64.zero, ModifyIndex := Int64.zero }, none)
          ∧ (validUTF8 p.Name = true → validUTF8 p.Node = true →
              (∀ c ∈ p.Checks, validUTF8 c = true) → validUTF8 p.TTL = true →
              jsonUnmarshalSession (some (jsonMarshalConsultParam p)) Session.zero
                  = ({ ID := [], Name := p.Name, Node := p.Node, Checks := p.Checks,
                       LockDelay := Int64.zero, Behavior := [], TTL := p.TTL,
                       CreateIndex := Int64.zero, ModifyIndex := Int64.zero }, none)
                ∧ ∀ (r : Lease), goString r.Name = p.Name → goString r.Node = p.Node →
                    r.Checks.map goString = p.Checks → goString r.TTL = p.TTL →
                    jsonUnmarshalSession (some (sessionJSON r)) Session.zero
                        = (r.toSession, none)
                      ∧ (jsonUnmarshalSession (some (sessionJSON r)) Session.zero).1.Name
                          = (jsonUnmarshalSession (some (jsonMarshalConsultParam p))
                              Session.zero).1.Name
                      ∧ (jsonUnmarshalSession (some (sessionJSON r)) Session.zero).1.Node
                          = (jsonUnmarshalSession (some (jsonMarshalConsultParam p))
                              Session.zero).1.Node
                      ∧ (jsonUnmarshalSession (some (sessionJSON r)) Session.zero).1.Checks
                          = (jsonUnmarshalSession (some (jsonMarshalConsultParam p))
                              Session.zero).1.Checks
                      ∧ (jsonUnmarshalSession (some (sessionJSON r)) Session.zero).1.TTL
                          = (jsonUnmarshalSession (some (jsonMarshalConsultParam p))
                              Session.zero).1.TTL
                      ∧ (r.ID = "" → r.LockDelay = Int64.zero → r.Behavior = "" →
                          r.CreateIndex = Int64.zero → r.ModifyIndex = Int64.zero →
                          jsonUnmarshalSession (some (sessionJSON r)) Session.zero
                            = jsonUnmarshalSession (some (jsonMarshalConsultParam p))
                                Session.zero)))
      ∧ (p.LockDelay ≠ [] →
        (jsonUnmarshalSession (some (jsonMarshalConsultParam p)) Session.zero).2
          = some (.unmarshalType "string" "Session.LockDelay")) := by
  obtain ⟨f1, f2, f3, f4, f5, f6, f7, f8, f9⟩ := findField_names
  refine ⟨?_, ?_⟩
  · intro h0
    refine ⟨decode_marshal_coerced p h0, ?_⟩
    intro v1 v2 v3 v4
    have hdec : jsonUnmarshalSession (some (jsonMarshalConsultParam p)) Session.zero
        = ({ ID := [], Name := p.Name, Node := p.Node, Checks := p.Checks,
             LockDelay := Int64.zero, Behavior := [], TTL := p.TTL,
             CreateIndex := Int64.zero, ModifyIndex := Int64.zero }, none) := by
      rw [decode_marshal_coerced p h0, goString_toValidUTF8 _ v1, goString_toValidUTF8 _ v2,
        goString_toValidUTF8 _ v4, map_coerce_valid _ v3]
    refine ⟨hdec, ?_⟩
    intro r e1 e2 e3 e4
    have hr : jsonUnmarshalSession (some (sessionJSON r)) Session.zero
        = (r.toSession, none) := by
      simp only [jsonUnmarshalSession, decodeSession_sessionJSON]
    rw [hr, hdec]
    refine ⟨rfl, e1, e2, e3, e4, ?_⟩
    intro z1 z2 z3 z4 z5
    simp [Lease.toSession, e1, e2, e3, e4, z1, z2, z3, z4, z5, goString_empty]
  · intro h0
    by_cases h1 : p.Node = [] <;> by_cases h2 : p.Name = [] <;>
      by_cases h3 : p.Checks = [] <;> by_cases h4 : p.TTL = [] <;>
      simp [jsonUnmarshalSession, decodeSession, jsonMarshalConsultParam, omitEmptyString,
        decodeMembers, setField, decodeString, decodeStringSlice, decodeStrings_map_coerce,
        firstErr, Session.zero, f2, f3, f4, f5, f7, h0, h1, h2, h3, h4, JSON.kind, decodeInt64]

/-- Counterexample to C8: the encoding of a create request with a lock-delay
(`"15s"`, a string) does not decode into a `Session`, whose `LockDelay` is an
`int64`: the decoding fails with a type error. And the encoding of a create
request whose name is the invalid byte `"\xff"` decodes to a `Session` named
U+FFFD, not to its name. -/
theorem lease_roundtrip_lockDelay_counterexample :
    jsonUnmarshalSession (some (jsonMarshalConsultParam lockDelayParam)) Session.zero
        = ({ ID := [], Name := dbWriter, Node := [], Checks := [],
             LockDelay := Int64.zero, Behavior := [], TTL := goString "15s",
             CreateIndex := Int64.zero, ModifyIndex := Int64.zero },
           some (.unmarshalType "string" "Session.LockDelay"))
      ∧ badNameParam.LockDelay = []
      ∧ (jsonUnmarshalSession (some (jsonMarshalConsultParam badNameParam)) Session.zero).2
          = none
      ∧ (jsonUnmarshalSession (some (jsonMarshalConsultParam badNameParam))
          Session.zero).1.Name = [GoUnit.rune (Char.ofNat 0xFFFD)]
      ∧ (jsonUnmarshalSession (some (jsonMarshalConsultParam badNameParam))
          Session.zero).1.Name ≠ badNameParam.Name := by
  refine ⟨by decide, by decide, by decide, by decide, by decide⟩

/-- Witness for C8: a create request without lock-delay, all of whose strings
are valid UTF-8, decodes to the session with the same name, node, checks and
TTL. -/
theorem lease_roundtrip_without_lockDelay_witness :
    jsonUnmarshalSession (some (jsonMarshalConsultParam plainParam)) Session.zero
      = ({ ID := [], Name := dbWriter, Node := goString "node-1",
           Checks := [goString "serfHealth"],
           LockDelay := Int64.zero, Behavior := [], TTL := goString "15s",
           CreateIndex := Int64.zero, ModifyIndex := Int64.zero }, none) :=
  ((((lease_roundtrip_without_lockDelay plainParam).1 (by decide)).2
    (by decide) (by decide) (by decide) (by decide))).1

/-- Witness for C2: limit 2, three calls for `db-writer` on the empty service
give true, true, false, and two leases named `db-writer` remain listed. -/
theorem checkAccessSeq_admits_first_min_witness :
    (CheckAccessSeq consul exampleApp dbWriter 2 3 emptyWorld).1
        = [(true, none), (true, none), (false, none)]
      ∧ (((CheckAccessSeq consul exampleApp dbWriter 2 3 emptyWorld).1.filter
            (fun r => r.1)).length : Int) ≤ 2
      ∧ leasesNamed dbWriter (CheckAccessSeq consul exampleApp dbWriter 2 3 emptyWorld).2.svc
          = 2
      ∧ (sessionCount consul exampleApp dbWriter
          (CheckAccessSeq consul exampleApp dbWriter 2 3 emptyWorld).2).1 = ((2 : Int), none) :=
  checkAccessSeq_admits_first_min exampleApp dbWriter 2 3 emptyWorld (by decide) (by decide)
    (by decide)

/-- Witness for C3: at limit 2 on a service that already holds two leases
named `db-writer`, the call is rejected, destroys the lease `xxx` it created,
and leaves the leases as they were. -/
theorem checkAccess_reject_destroys_created_lease_witness :
    (CheckAccess consul exampleApp dbWriter 2 busyWorld).1 = (false, none)
      ∧ ((CheckAccess consul exampleApp dbWriter 2 busyWorld).2.log.map
            (fun r => toValidUTF8 r.url))
          = ["http://localhost:8500/v1/session/create", "http://localhost:8500/v1/session/list",
             "http://localhost:8500/v1/session/destroy/xxx"]
      ∧ (CheckAccess consul exampleApp dbWriter 2 busyWorld).2.svc.leases
          = busyWorld.svc.leases :=
  ⟨(checkAccess_reject_destroys_created_lease.2 exampleApp dbWriter 2 busyWorld (by decide)).1, by decide,
    (checkAccess_reject_destroys_created_lease.2 exampleApp dbWriter 2 busyWorld (by decide)).2.2.2.1⟩

/-- Witness for C4: on the model service every step succeeds; at limit 2 with
two leases already named `db-writer` the call ends after its destroy with
`(false, nil)`. -/
theorem checkAccess_error_iff_first_failing_step_witness :
    CheckAccess consul exampleApp dbWriter 2 busyWorld
      = ((false, none),
          (deleteSession consul exampleApp (goString "xxx")
            (sessionCount consul exampleApp dbWriter
              (createSession consul exampleApp (checkAccessData exampleApp dbWriter)
                busyWorld).2).2).2) :=
  (checkAccess_error_iff_first_failing_step consul exampleApp dbWriter 2 busyWorld
    (createSession consul exampleApp (checkAccessData exampleApp dbWriter) busyWorld).2
    (sessionCount consul exampleApp dbWriter
      (createSession consul exampleApp (checkAccessData exampleApp dbWriter) busyWorld).2).2
    (deleteSession consul exampleApp (goString "xxx")
      (sessionCount consul exampleApp dbWriter
        (createSession consul exampleApp (checkAccessData exampleApp dbWriter)
          busyWorld).2).2).2
    (some (sessionJSON (createdLease exampleApp dbWriter busyWorld.svc.leases)))
    (some (.arr ((busyWorld.svc.leases
      ++ [createdLease exampleApp dbWriter busyWorld.svc.leases]).map sessionJSON)))
    (some (.bool true)) none none none none none
    (createdLease exampleApp dbWriter busyWorld.svc.leases).toSession
    ((busyWorld.svc.leases
      ++ [createdLease exampleApp dbWriter busyWorld.svc.leases]).map Lease.toSession)
    rfl (by decide) rfl (by decide) rfl).2.2.2.2.2.2.2.1 rfl rfl rfl rfl (by decide) rfl

/-- Witness for C6: cancelled with no tick pending, the loop cannot take the
tick case and stops without any further request. -/
theorem sessionHold_stopped_terminal_quiet_witness :
    holdStep consul exampleApp heldSession
        { state := .Running, tickPending := false, cancelled := true, world := heldWorld }
        (.select .tick) = none
      ∧ (holdStep consul exampleApp heldSession
          { state := .Running, tickPending := false, cancelled := true, world := heldWorld }
          (.select .done)).map Hold.view
        = some (.Stopped, true,
            ["http://localhost:8500/v1/session/create", "http://localhost:8500/v1/session/list"]) :=
  ⟨((sessionHold_stopped_terminal_quiet consul exampleApp heldSession).2.2.1
      { state := .Running, tickPending := false, cancelled := true, world := heldWorld }
      rfl rfl rfl).1, by decide⟩

/-- Witness for C7: renewing a lease the service no longer holds fails (the body
is no lease record), and two rounds of ticks for it leave the loop Running
with two renew requests made. -/
theorem sessionHold_tick_renews_once_stays_running_witness :
    (reNewSession consul exampleApp heldSession emptyWorld).1.2 = some .jsonSyntax
      ∧ ∃ h, holdRun consul exampleApp heldSession (tickRounds 2)
            { state := .Running, tickPending := false, cancelled := false, world := emptyWorld }
          = some h
        ∧ h.state = .Running
        ∧ h.world.log = emptyWorld.log ++ List.replicate 2 (renewRequest heldSession) :=
  ⟨by decide, (sessionHold_tick_renews_once_stays_running consul exampleApp heldSession).2.1 2 emptyWorld⟩

/-- Witness for C9: the list exchange fails with a transport error; the call
returns that error and the created lease stays in the service. -/
theorem checkAccess_list_failure_keeps_lease_witness :
    CheckAccess (consulListFault (.error (.transport 7))) exampleApp dbWriter 2 emptyWorld
      = ((false, some (.transport 7)),
          { svc := { leases := [createdLease exampleApp dbWriter []] },
            log := [createRequest (checkAccessData exampleApp dbWriter), listRequest] }) :=
  checkAccess_list_failure_keeps_lease.2 exampleApp dbWriter 2 emptyWorld (.error (.transport 7)) (.transport 7) (Or.inl rfl)

/-- Witness for C10: a period of 5 gives an interval of 5 s, a period of -3 an
interval of -3 s. -/
theorem tickerInterval_exact_or_newTicker_panics_witness :
    tickerInterval exampleApp = 5000000000
      ∧ tickerInterval { TTL := [], UpdatePeriod := -3 } = -3000000000 :=
  ⟨((tickerInterval_exact_or_newTicker_panics exampleApp).1 (by decide) (by decide)).1,
    ((tickerInterval_exact_or_newTicker_panics { TTL := [], UpdatePeriod := -3 }).2.1 (by decide) (by decide)).1⟩

end ConsulSessionLock
